import Mathlib

/-!
# datum-type-parser: classification and conversion of text tokens

A shallow embedding of `src/datum_parser.hpp` and `src/datum_parser.cpp`.

Conventions of the embedding.

* A `std::string` is a list of bytes (`Str`); every `char` is read as `unsigned char`, which is
  how `filter_chars` and `is_integer` hand it to their predicates.
* The target is an LP64 GNU/Linux on x86-64: `long long` and `unsigned long` have 64 bits and
  `long double` is the 80-bit extended format (64-bit significand, exponents `-16382 .. 16383`).
* A call that may report an error is a function from the `World` (the global severity and what
  has been written to `std::cerr`) to an `Outcome`: it returns, it lets a
  `std::invalid_argument` escape, or it ends the process.
* A callback handed to `visit` is a call of its own: it may return, throw or end the process;
  `try { ... } catch (...)` is `try_catch_all`.
* The header `date.h` is not among the sources.  Everything that calls `date::parse` takes the
  parser as a parameter `dp`; `date_parse` further down is a model of it for the conversion
  specifiers of `date_patterns`.
-/

namespace datum

/-! ## Strings -/

/-- One `char` of a `std::string`, as the `unsigned char` the predicates receive. -/
abbrev Byte := Fin 256

/-- A `std::string`. -/
abbrev Str := List Byte

/-- The bytes of an ASCII literal (every character of the literals used here is below 128). -/
def ascii (s : String) : Str := s.toList.map fun c => Fin.ofNat c.toNat

/-! ## Error handling -/

/-- The enumeration `ErrorSeverity`. -/
inductive ErrorSeverity where
  | Silence
  | Logging
  | Throw
  | Terminate
  deriving DecidableEq, Repr

/-- The observable state: `__global_error_severity` and the bytes written to `std::cerr`. -/
structure World where
  severity : ErrorSeverity
  cerr : Str
  deriving DecidableEq, Repr

/-- How a call ends: it returns `v`, an exception carrying `what` leaves it (the program itself
throws only `std::invalid_argument`), or `exit(status)` ends the process. -/
inductive Outcome (α : Type) where
  | returned (v : α) (w : World)
  | thrown (what : Str) (w : World)
  | exited (status : Nat) (w : World)
  deriving DecidableEq, Repr

/-- A call of the program. -/
def Eff (α : Type) : Type := World → Outcome α

/-- Sequencing of two calls: the second runs only if the first returns. -/
def Eff.bind {α β : Type} (m : Eff α) (f : α → Eff β) : Eff β := fun w =>
  match m w with
  | .returned v w1 => f v w1
  | .thrown e w1 => .thrown e w1
  | .exited c w1 => .exited c w1

instance : Monad Eff where
  pure v := fun w => .returned v w
  bind := Eff.bind

/-- The macro `RED`, `"\033[31m"`. -/
def RED : Str := [27, 91, 51, 49, 109]

/-- The macro `RESET`, `"\033[0m"`. -/
def RESET : Str := [27, 91, 48, 109]

/-- The startup value of `__global_error_severity`, with nothing written yet. -/
def initialWorld : World := ⟨.Throw, []⟩

/-- The function `set_error_severity`. -/
def set_error_severity (e : ErrorSeverity) : Eff Unit := fun w =>
  .returned () { w with severity := e }

/-- The overload `handle_error(ErrorSeverity const &e, std::string const &msg)`.  `Logging`
falls through to the `break` of `Silence`. -/
def handle_error_with (e : ErrorSeverity) (msg : Str) : Eff Unit := fun w =>
  match e with
  | .Throw => .thrown msg w
  | .Terminate =>
      .exited 1 { w with cerr := w.cerr ++ RED ++ msg ++ RESET ++ ascii " exit 1" ++ [10] }
  | .Logging => .returned () { w with cerr := w.cerr ++ RED ++ msg ++ RESET ++ [10] }
  | .Silence => .returned () w

/-- The overload `handle_error(std::string const &msg)`: uses the global severity. -/
def handle_error (msg : Str) : Eff Unit := fun w =>
  handle_error_with w.severity msg w

/-! ## Character classes and `filter_chars` -/

/-- `std::isdigit` in the "C" locale. -/
def isdigit (c : Byte) : Bool := decide (48 ≤ c.val) && decide (c.val ≤ 57)

/-- `std::isspace` in the "C" locale: space, `\t`, `\n`, `\v`, `\f`, `\r`. -/
def isspace (c : Byte) : Bool := decide (c.val = 32) || (decide (9 ≤ c.val) && decide (c.val ≤ 13))

/-- The function `filter_chars`: keeps the bytes that satisfy the predicate, in order. -/
def filter_chars (s : Str) (predicate : Byte → Bool) : Str :=
  s.filter predicate

/-- The lambda of `parse_integer` and `parse_float`: `c == '.' || (c >= 48 && c <= 57)`. -/
def digit_or_period (c : Byte) : Bool :=
  decide (c.val = 46) || (decide (c.val ≥ 48) && decide (c.val ≤ 57))

/-- The first lambda of `is_numeric`: the byte is not a digit, `,`, `.`, `%`, `$` or `>= 156`. -/
def illegal_char (c : Byte) : Bool :=
  !((decide (c.val ≥ 48) && decide (c.val ≤ 57)) || decide (c.val = 44) || decide (c.val = 46)
    || decide (c.val = 37) || decide (c.val = 36) || decide (c.val ≥ 156))

/-- The second lambda of `is_numeric`: `c < 127 && c != ','`. -/
def below_127_not_comma (c : Byte) : Bool :=
  decide (c.val < 127) && decide (c.val ≠ 44)

/-! ## The conversions of the standard library -/

/-- The exceptions of `std::stoll` and `std::stold`. -/
inductive ConvError where
  | invalid_argument
  | out_of_range
  deriving DecidableEq, Repr

deriving instance DecidableEq for Except

/-- The value of a run of decimal digits, most significant first. -/
def digitsValue (ds : Str) : Nat :=
  ds.foldl (fun acc c => 10 * acc + (c.val - 48)) 0

/-- The optional sign that `strtoll` and `strtold` accept after leading white space: whether it
is a minus, and the rest of the input. -/
def takeSign (s : Str) : Bool × Str :=
  match s with
  | [] => (false, [])
  | c :: t => if c.val = 45 then (true, t) else if c.val = 43 then (false, t) else (false, c :: t)

/-- `std::stoll(s)` (base 10, no position argument): skips white space, takes an optional sign
and the longest run of digits; `invalid_argument` if there is no digit, `out_of_range` if the
value does not fit a 64-bit `long long`. -/
def stoll (s : Str) : Except ConvError Int :=
  let (neg, body) := takeSign (s.dropWhile isspace)
  let ds := body.takeWhile isdigit
  if ds.isEmpty then .error .invalid_argument
  else
    let v : Int := if neg then -(digitsValue ds : Int) else (digitsValue ds : Int)
    if v < -(2 : Int) ^ 63 ∨ (2 : Int) ^ 63 - 1 < v then .error .out_of_range else .ok v

/-- Whether `strtold` overflows on the decimal `mant / 10 ^ scale`: rounded to nearest with a
64-bit significand the value would reach `2 ^ 16384`, that is
`mant / 10 ^ scale >= 2 ^ 16384 - 2 ^ 16319`. -/
def ld_overflow (mant scale : Nat) : Bool :=
  decide ((2 ^ 16384 - 2 ^ 16319) * 10 ^ scale ≤ mant)

/-- Whether `strtold` underflows on the decimal `mant / 10 ^ scale` (glibc sets `ERANGE` when the
result is tiny after rounding and inexact): the value is not zero, lies below
`2 ^ -16382 * (1 - 2 ^ -65)`, and is not a multiple of the least subnormal `2 ^ -16445`. -/
def ld_underflow (mant scale : Nat) : Bool :=
  decide (mant ≠ 0) && decide (mant * 2 ^ 16447 < (2 ^ 65 - 1) * 10 ^ scale)
    && !decide (10 ^ scale ∣ mant * 2 ^ 16445)

/-- A `long double`, represented by the exact rational that the conversion rounds: `strtold`
rounds correctly, so the `long double` is a function of this rational alone. -/
abbrev LongDouble := ℚ

/-- `std::stold(s)` (no position argument) on input without letters: skips white space, takes
an optional sign and the longest prefix `digits`, `digits.`, `digits.digits` or `.digits`;
`invalid_argument` if that prefix has no digit, `out_of_range` if `strtold` sets `ERANGE`.
The exponent, hexadecimal, `inf` and `nan` forms all need a letter; the callers filter their
argument down to digits, `.`, `%` and `$` first (see `digit_or_period_filtrate` and
`is_numeric_filtrate`). -/
def stold (s : Str) : Except ConvError LongDouble :=
  let (neg, body) := takeSign (s.dropWhile isspace)
  let ip := body.takeWhile isdigit
  let fp := match body.dropWhile isdigit with
    | [] => []
    | c :: t => if c.val = 46 then t.takeWhile isdigit else []
  if ip.isEmpty && fp.isEmpty then .error .invalid_argument
  else
    let mant := digitsValue (ip ++ fp)
    let scale := fp.length
    if ld_overflow mant scale || ld_underflow mant scale then .error .out_of_range
    else .ok ((if neg then -1 else 1) * (mant : ℚ) / (10 : ℚ) ^ scale)

/-! ## Data model (`datum_parser.hpp`) -/

/-- The enumeration `DataType`. -/
inductive DataType where
  | Currency
  | Date
  | String
  | Float
  | Integer
  | Percentage
  deriving DecidableEq, Repr

/-- A date format string. -/
abbrev Pattern := Str

/-- The variant `Entry`: `std::string`, `long double`, `long long` or `unsigned long`. -/
inductive Entry where
  | text (s : Str)
  | long_double (x : LongDouble)
  | long_long (x : Int)
  | unsigned_long (x : Nat)
  deriving DecidableEq

/-- The class `Datum`: the stored entry and its tag. -/
structure Datum where
  entry : Entry
  type : DataType
  deriving DecidableEq

/-- The structure `ParseInstruction`; the one-argument constructor leaves the pattern empty. -/
structure ParseInstruction where
  type : DataType
  pattern : Pattern := []
  deriving DecidableEq, Repr

/-! ## Numerical classification and conversion -/

/-- The function `is_integer`: non-empty, and `find_if` meets no byte that is not a digit. -/
def is_integer (s : Str) : Bool :=
  !s.isEmpty && (s.find? fun c => !isdigit c).isNone

/-- The function `is_numeric`.  The conversion result is discarded; every exception of
`std::stold` is caught and gives `false`. -/
def is_numeric (s : Str) : Bool :=
  if s.isEmpty then false
  else
    let illegal_chars := filter_chars s illegal_char
    if illegal_chars.length > 0 then false
    else
      match stold (filter_chars s below_127_not_comma) with
      | .ok _ => true
      | .error _ => false

/-- The function `parse_integer`: an exception of `std::stoll` is caught, reported through
`handle_error`, and `0` is returned if that call returns. -/
def parse_integer (str_num : Str) : Eff Int :=
  match stoll (filter_chars str_num digit_or_period) with
  | .ok v => pure v
  | .error _ => do
      handle_error (ascii "Failed to convert: " ++ str_num ++ ascii " to long long")
      pure 0

/-- The function `parse_float`, with the same shape as `parse_integer`. -/
def parse_float (str_num : Str) : Eff LongDouble :=
  match stold (filter_chars str_num digit_or_period) with
  | .ok v => pure v
  | .error _ => do
      handle_error (ascii "Failed to convert: " ++ str_num ++ ascii " to long double")
      pure 0

/-! ## Dates -/

/-- The constant `date_patterns`, in the order of the source. -/
def date_patterns : List Pattern := [
  ascii "%a, %d %b %Y %T %z",
  ascii "%Y-%m-%dT%H:%M:%SZ",
  ascii "%Y-%m-%dT%H:%M:%S",
  ascii "%Y-%m-%d %H:%M:%S",
  ascii "%Y/%m/%dT%H:%M:%SZ",
  ascii "%Y/%m/%dT%H:%M:%S",
  ascii "%Y/%m/%d %H:%M:%S",
  ascii "%d/%m/%Y %H:%M:%S",
  ascii "%d/%m/%Y %H:%M",
  ascii "%d/%m/%Y %I:%M %p",
  ascii "%m/%d/%Y %I:%M%p",
  ascii "%d-%m-%Y %H:%M:%S",
  ascii "%d-%m-%Y %H:%M",
  ascii "%d-%m-%Y %I:%M %p",
  ascii "%m-%d-%Y %I:%M%p",
  ascii "%b %e, %Y %I:%M %p",
  ascii "%Y/%m/%d",
  ascii "%d/%m/%y",
  ascii "%d/%m/%Y",
  ascii "%m/%d/%Y",
  ascii "%Y/%m",
  ascii "%d/%b/%y",
  ascii "%Y-%m-%d",
  ascii "%d-%b-%y",
  ascii "%d-%m-%y",
  ascii "%d-%m-%Y",
  ascii "%m-%d-%Y",
  ascii "%d-%b-%y",
  ascii "%Y-%m",
  ascii "%d %b %Y",
  ascii "%b %d, %Y"]

/-- What `in >> date::parse(pattern, tp)` does on a fresh `std::istringstream` over the string:
`none` when `in.fail()` holds afterwards, else the time point written to `tp`, in milliseconds
since 1970-01-01T00:00:00 UTC. -/
abbrev DateParser := Pattern → Str → Option Int

/-- The loop of `get_date_pattern` over the remaining patterns: the first one that parses. -/
def first_pattern (dp : DateParser) (date_string : Str) : List Pattern → Option Pattern
  | [] => none
  | opt :: rest =>
      match dp opt date_string with
      | none => first_pattern dp date_string rest
      | some _ => some opt

/-- The function `get_date_pattern`. -/
def get_date_pattern (dp : DateParser) (date_string : Str) : Eff Pattern :=
  match first_pattern dp date_string date_patterns with
  | some opt => pure opt
  | none => do
      handle_error (ascii "Could not find date pattern for: " ++ date_string)
      pure (ascii "invalid")

/-- The function `is_date`. -/
def is_date (dp : DateParser) (date_string : Str) : Eff Bool := do
  let pattern ← get_date_pattern dp date_string
  pure (decide (pattern ≠ ascii "invalid"))

/-- The conversion of the `long` count of milliseconds to the `unsigned long` returned. -/
def to_unsigned_long (x : Int) : Nat := (x % 2 ^ 64).toNat

/-- The overload `parse_date(date_string, pattern)`: on success the time point is floored to
days and the days are counted in milliseconds. -/
def parse_date (dp : DateParser) (date_string : Str) (pattern : Pattern) : Eff Nat :=
  match dp pattern date_string with
  | none => do
      handle_error (ascii "Failed to convert: \x27" ++ date_string ++ ascii "\x27 with pattern: \x27"
        ++ (if pattern.isEmpty then ascii "empty pattern" else pattern)
        ++ ascii "\x27 to milliseconds")
      pure 0
  | some tp =>
      let tp_days : Int := tp / 86400000
      pure (to_unsigned_long (tp_days * 86400000))

/-- The overload `parse_date(date_string)`: classifies first, `0` on the sentinel pattern. -/
def parse_date_classified (dp : DateParser) (date_string : Str) : Eff Nat := do
  let pattern ← get_date_pattern dp date_string
  if pattern = ascii "invalid" then pure 0
  else parse_date dp date_string pattern

/-! ## The engine -/

/-- The function `get_parse_instruction`. -/
def get_parse_instruction (dp : DateParser) (raw_data : Str) : Eff ParseInstruction :=
  if is_integer raw_data then pure { type := .Integer }
  else if is_numeric raw_data then pure { type := .Float }
  else do
    let pattern ← get_date_pattern dp raw_data
    if pattern ≠ ascii "invalid" then pure { type := .Date, pattern := pattern }
    else pure { type := .String }

/-- The overload `parse(raw_data, parse_instruction)`.  The `default` branch of the `switch` is
not reachable from a value of the enumeration. -/
def parse (dp : DateParser) (raw_data : Str) (parse_instruction : ParseInstruction) : Eff Datum :=
  match parse_instruction.type with
  | .Currency | .Float | .Percentage => do
      let v ← parse_float raw_data
      pure ⟨.long_double v, parse_instruction.type⟩
  | .Date => do
      if parse_instruction.pattern = [] then
        handle_error (ascii "Attempting to parse date with empty pattern")
      let v ← parse_date dp raw_data parse_instruction.pattern
      pure ⟨.unsigned_long v, parse_instruction.type⟩
  | .Integer => do
      let v ← parse_integer raw_data
      pure ⟨.long_long v, parse_instruction.type⟩
  | .String => pure ⟨.text raw_data, parse_instruction.type⟩

/-- The overload `parse(raw_data)`. -/
def parse_classified (dp : DateParser) (raw_data : Str) : Eff Datum := do
  let instruction ← get_parse_instruction dp raw_data
  parse dp raw_data instruction

/-! ## Access to a `Datum`, and the test program -/

/-- The four alternatives of `Entry`, as the template argument `T` of `visit<T>`. -/
inductive EntryType where
  | text
  | long_double
  | long_long
  | unsigned_long
  deriving DecidableEq, Repr

/-- The C++ type that the template argument stands for. -/
@[reducible] def EntryType.carrier : EntryType → Type
  | .text => Str
  | .long_double => LongDouble
  | .long_long => Int
  | .unsigned_long => Nat

/-- The alternative that an entry holds. -/
def Entry.holds : Entry → EntryType
  | .text _ => .text
  | .long_double _ => .long_double
  | .long_long _ => .long_long
  | .unsigned_long _ => .unsigned_long

/-- `std::get<T>(entry)`: the stored value if the variant holds a `T`, else
`std::bad_variant_access` is thrown. -/
def std_get (T : EntryType) (entry : Entry) : Eff T.carrier := fun w =>
  match T, entry with
  | .text, .text s => .returned s w
  | .long_double, .long_double x => .returned x w
  | .long_long, .long_long x => .returned x w
  | .unsigned_long, .unsigned_long x => .returned x w
  | _, _ => .thrown (ascii "bad variant access") w

/-- The statement `try { body } catch (...) { handler }`: every exception of the body is caught,
whatever it carries, and the handler runs in the state the body left. -/
def try_catch_all {α : Type} (body : Eff α) (handler : Eff α) : Eff α := fun w =>
  match body w with
  | .returned v w1 => .returned v w1
  | .thrown _ w1 => handler w1
  | .exited c w1 => .exited c w1

/-- The member `Datum::visit<T>(std::function<void(T)> visitor)`.  An empty `std::function` is
the visitor that throws `std::bad_function_call` at once. -/
def Datum.visit (d : Datum) (T : EntryType) (visitor : T.carrier → Eff Unit) : Eff Unit :=
  try_catch_all (std_get T d.entry >>= visitor)
    (handle_error (ascii "Invalid type argument to visit"))

/-- The member `Datum::visit(std::function<void(Entry, DataType)> visitor)`. -/
def Datum.visit_untyped (d : Datum) (visitor : Entry → DataType → Eff Unit) : Eff Unit :=
  visitor d.entry d.type

/-- The function `main` of `test.cpp`; `visitor` stands for its lambda, which prints its
argument to `std::cout`. -/
def test_main (dp : DateParser) (visitor : Nat → Eff Unit) : Eff Unit := do
  set_error_severity .Logging
  let d ← parse dp (ascii "2020/09/dog09") { type := .Date }
  d.visit .unsigned_long visitor

/-! ## A model of `date::parse`

The header `date.h` (H. Hinnant's date library) is included by `datum_parser.hpp` but is not
among the sources.  The definitions of this section follow the library's `from_stream` for
`sys_time<milliseconds>` over a `std::istringstream`, for the conversion specifiers that occur
in `date_patterns`: `%a %b %d %e %H %I %m %M %p %S %T %y %Y %z` and `%%`, without width or
modifier.

* The stream is the unread input with `eofbit` and `failbit`; `peek`, `get` and `std::ws`
  start with a sentry, which sets `failbit` on a stream that is not good.
* The names of `%a`, `%b` and `%p` are read by the library's own `scan_keyword` over the
  English names (its `ONLY_C_LOCALE` configuration): full or abbreviated, in any case.  The
  default configuration hands these three to the `std::time_get` facet of the stream, whose
  matching of the same names in the "C" locale differs between standard libraries.  No
  theorem below rests on a name being accepted or refused, except on input whose next byte
  begins no English name at all.
* The seconds of `%S` and `%T` are read as digits with at most one decimal point and rounded
  to milliseconds on their exact value; the program floors every time point to whole days, so
  the sub-second part never shows in a result.
-/

/-- The part of a `std::istringstream` that parsing observes: the unread bytes, `eofbit` and
`failbit`. -/
structure IStream where
  inp : Str
  eofbit : Bool
  failbit : Bool
  deriving DecidableEq, Repr

namespace IStream

/-- `is.good()`. -/
def good (is : IStream) : Bool := !is.eofbit && !is.failbit

/-- `is.setstate(std::ios::failbit)`. -/
def setfail (is : IStream) : IStream := { is with failbit := true }

/-- `is.peek()`: the next byte, `none` for end of file.  Its sentry sets `failbit` on a stream
that is not good; reaching the end of a good stream sets `eofbit`. -/
def peek (is : IStream) : Option Byte × IStream :=
  if is.good then
    match is.inp with
    | [] => (none, { is with eofbit := true })
    | c :: _ => (some c, is)
  else (none, is.setfail)

/-- `(void)is.get()`. -/
def get (is : IStream) : IStream :=
  if is.good then
    match is.inp with
    | [] => { is with eofbit := true, failbit := true }
    | _ :: t => { is with inp := t }
  else is.setfail

/-- `std::ws(is)`: skips white space, sets `eofbit` if the input ends. -/
def ws (is : IStream) : IStream :=
  if is.good then
    let rest := is.inp.dropWhile isspace
    { is with inp := rest, eofbit := rest.isEmpty }
  else is.setfail

end IStream

/-- The loop of `detail::read_unsigned`, with `fuel` iterations left before `count == M`. -/
def read_unsigned_loop : Nat → Nat → Nat → IStream → Nat × Nat × IStream
  | 0, x, count, is => (x, count, is)
  | fuel + 1, x, count, is =>
      match is.peek with
      | (none, is1) => (x, count, is1)
      | (some c, is1) =>
          if isdigit c then read_unsigned_loop fuel (10 * x + (c.val - 48)) (count + 1) is1.get
          else (x, count, is1)

/-- `detail::read_unsigned(is, m, M)`: between `m` and `M` digits. -/
def read_unsigned (is : IStream) (m M : Nat) : Nat × IStream :=
  let (x, count, is1) := read_unsigned_loop M 0 0 is
  (x, if count < m then is1.setfail else is1)

/-- `detail::read_signed(is, m, M)`: an optional sign, then `read_unsigned`. -/
def read_signed (is : IStream) (m M : Nat) : Int × IStream :=
  let failed (is1 : IStream) : Int × IStream := (0, if m > 0 then is1.setfail else is1)
  match is.peek with
  | (none, is1) => failed is1
  | (some c, is1) =>
      if isdigit c || decide (c.val = 45) || decide (c.val = 43) then
        let is2 := if c.val = 45 ∨ c.val = 43 then is1.get else is1
        let (x, is3) := read_unsigned is2 (max m 1) M
        if !is3.failbit then (if c.val = 45 then -(x : Int) else (x : Int), is3)
        else failed is3
      else failed is1

/-- The integer part, the fraction digits and their number, as `detail::read_long_double`
accumulates them. -/
structure SecondsDigits where
  i : Nat
  f : Nat
  fcount : Nat
  deriving DecidableEq, Repr

/-- The loop of `detail::read_long_double`, with `fuel` iterations left before `count == M`;
`point` tells whether the decimal point may still come. -/
def read_long_double_loop : Nat → SecondsDigits → Nat → Bool → IStream → SecondsDigits × Nat × IStream
  | 0, acc, count, _, is => (acc, count, is)
  | fuel + 1, acc, count, point, is =>
      match is.peek with
      | (none, is1) => (acc, count, is1)
      | (some c, is1) =>
          if point && decide (c.val = 46) then
            read_long_double_loop fuel acc (count + 1) false is1.get
          else if !isdigit c then (acc, count, is1)
          else if point then
            read_long_double_loop fuel { acc with i := 10 * acc.i + (c.val - 48) } (count + 1)
              point is1.get
          else
            read_long_double_loop fuel
              { acc with f := 10 * acc.f + (c.val - 48), fcount := acc.fcount + 1 } (count + 1)
              point is1.get

/-- `round_i<milliseconds>` of `i + f / 10 ^ fcount` seconds, on the exact value, ties to even. -/
def seconds_to_ms (sd : SecondsDigits) : Int :=
  let den := 10 ^ sd.fcount
  let num := (sd.i * den + sd.f) * 1000
  let q := num / den
  let r := num % den
  if 2 * r < den then (q : Int)
  else if den < 2 * r then (q : Int) + 1
  else if q % 2 = 0 then (q : Int) else (q : Int) + 1

/-- `detail::read_long_double(is, m, M)` followed by the rounding to milliseconds. -/
def read_long_double (is : IStream) (m M : Nat) : Int × IStream :=
  let (acc, count, is1) := read_long_double_loop M ⟨0, 0, 0⟩ 0 true is
  if count < m then (0, is1.setfail) else (seconds_to_ms acc, is1)

/-- `detail::read(is, CharT a0)` for a character that must match. -/
def read_char (is : IStream) (a0 : Byte) : IStream :=
  match is.peek with
  | (none, is1) => { is1 with eofbit := true, failbit := true }
  | (some c, is1) => if c = a0 then is1.get else is1.setfail

/-- `std::toupper` in the "C" locale. -/
def toupper (c : Byte) : Byte :=
  if 97 ≤ c.val ∧ c.val ≤ 122 then Fin.ofNat (c.val - 32) else c

/-- The status of a keyword in `detail::scan_keyword`. -/
inductive KwStatus where
  | doesnt_match
  | might_match
  | does_match
  deriving DecidableEq, Repr

/-- The inner loop of `scan_keyword` for the upper-cased byte `c` at position `indx`: the new
statuses, and whether the byte is consumed. -/
def scan_keyword_test (c : Byte) (indx : Nat) : List (Str × KwStatus) → List (Str × KwStatus) × Bool
  | [] => ([], false)
  | (ky, st) :: rest =>
      let (rest1, consume) := scan_keyword_test c indx rest
      if st = .might_match then
        if some c = (ky.get? indx).map toupper then
          ((ky, if ky.length = indx + 1 then .does_match else .might_match) :: rest1, true)
        else ((ky, .doesnt_match) :: rest1, consume)
      else ((ky, st) :: rest1, consume)

/-- How many keywords have the given status. -/
def kw_count (st : KwStatus) (kws : List (Str × KwStatus)) : Nat :=
  (kws.filter fun k => k.2 = st).length

/-- The outer loop of `detail::scan_keyword`. -/
def scan_keyword_loop : Nat → Nat → List (Str × KwStatus) → IStream → List (Str × KwStatus) × IStream
  | 0, _, kws, is => (kws, is)
  | fuel + 1, indx, kws, is =>
      if !is.failbit && decide (kw_count .might_match kws > 0) then
        match is.peek with
        | (none, is1) => (kws, { is1 with eofbit := true })
        | (some ic, is1) =>
            let (kws1, consume) := scan_keyword_test (toupper ic) indx kws
            if consume then
              let kws2 :=
                if kw_count .might_match kws1 + kw_count .does_match kws1 > 1 then
                  kws1.map fun k =>
                    if k.2 = .does_match ∧ k.1.length ≠ indx + 1 then (k.1, .doesnt_match) else k
                else kws1
              scan_keyword_loop fuel (indx + 1) kws2 is1.get
            else scan_keyword_loop fuel (indx + 1) kws1 is1
      else (kws, is)

/-- `detail::scan_keyword(is, kb, ke) - kb`: the index of the first keyword that matches;
`failbit` is set if there is none. -/
def scan_keyword (is : IStream) (keywords : List Str) : Nat × IStream :=
  let init := keywords.map fun ky => (ky, if ky.isEmpty then KwStatus.does_match else .might_match)
  let (kws, is1) := scan_keyword_loop (is.inp.length + 1) 0 init is
  let idx := kws.findIdx fun k => k.2 = .does_match
  (idx, if idx = kws.length then is1.setfail else is1)

/-- `detail::weekday_names()`. -/
def weekday_names : List Str :=
  ["Sunday", "Monday", "Tuesday", "Wednesday", "Thursday", "Friday", "Saturday",
   "Sun", "Mon", "Tue", "Wed", "Thu", "Fri", "Sat"].map ascii

/-- `detail::month_names()`. -/
def month_names : List Str :=
  ["January", "February", "March", "April", "May", "June", "July", "August", "September",
   "October", "November", "December",
   "Jan", "Feb", "Mar", "Apr", "May", "Jun", "Jul", "Aug", "Sep", "Oct", "Nov", "Dec"].map ascii

/-- `detail::ampm_names()`. -/
def ampm_names : List Str := ["AM", "PM"].map ascii

/-- C++ integer division, which truncates toward zero. -/
def cdiv (a b : Int) : Int := Int.tdiv a b

/-- C++ integer remainder, with the sign of the dividend. -/
def cmod (a b : Int) : Int := Int.tmod a b

/-- The sentinel `not_a_year`, `numeric_limits<short>::min()`. -/
def not_a_year : Int := -32768

/-- The sentinel `not_a_2digit_year`. -/
def not_a_2digit_year : Int := 100

/-- The sentinel `not_a_month`. -/
def not_a_month : Int := 0

/-- The sentinel `not_a_day`. -/
def not_a_day : Int := 0

/-- The sentinel `not_a_hour`, `numeric_limits<int>::min()`. -/
def not_a_hour : Int := -2147483648

/-- The sentinel `not_a_hour_12_value`. -/
def not_a_hour_12_value : Int := 0

/-- The sentinel `not_a_minute`. -/
def not_a_minute : Int := -2147483648

/-- The sentinel `not_a_second`, `milliseconds::min()`. -/
def not_a_second : Int := -9223372036854775808

/-- The sentinel `not_a_weekday`. -/
def not_a_weekday : Int := 8

/-- The sentinel `not_a_ampm`. -/
def not_a_ampm : Int := -1

/-- The sentinel `not_a_offset`, `minutes::min()`. -/
def not_a_offset : Int := -9223372036854775808

/-- The local variables of `from_stream` that the modelled specifiers use: the stream, whether a
`%` is pending, and the fields read so far (seconds in milliseconds, the offset in minutes). -/
structure ParseState where
  is : IStream
  command : Bool
  Y : Int
  y : Int
  m : Int
  d : Int
  wd : Int
  H : Int
  I : Int
  p : Int
  M : Int
  s : Int
  temp_offset : Int
  deriving DecidableEq, Repr

/-- The state of `from_stream` before the first format character. -/
def ParseState.init (input : Str) : ParseState :=
  { is := ⟨input, false, false⟩, command := false, Y := not_a_year, y := not_a_2digit_year,
    m := not_a_month, d := not_a_day, wd := not_a_weekday, H := not_a_hour,
    I := not_a_hour_12_value, p := not_a_ampm, M := not_a_minute, s := not_a_second,
    temp_offset := not_a_offset }

/-- `detail::checked_set(value, from, not_a_value, is)`: a field is set once, and a second
reading must agree with the first. -/
def checked_set (value new_value not_a_value : Int) (is : IStream) : Int × IStream :=
  if !is.failbit then
    if value = not_a_value then (new_value, is)
    else if value ≠ new_value then (value, is.setfail)
    else (value, is)
  else (value, is)

/-- The reading of `%z` without modifier: `hh` or `hhmm` with an optional sign, in minutes. -/
def read_offset (is : IStream) : Int × IStream :=
  let (ic, is0) := is.peek
  let neg : Bool := match ic with
    | some c => decide (c.val = 45)
    | none => false
  let (tH, is1) := read_signed is0 2 2
  let toff : Int := if !is1.failbit then 60 * tH.natAbs else not_a_offset
  let (toff, is2) : Int × IStream :=
    if is1.good then
      match is1.peek with
      | (none, is2) => (toff, is2)
      | (some c, is2) =>
          if isdigit c then
            let (tM, is3) := read_unsigned is2 2 2
            (if !is3.failbit then toff + tM else toff, is3)
          else (toff, is2)
    else (toff, is1)
  (if neg then -toff else toff, is2)

/-- The body of the loop of `from_stream` for one format character.  A specifier outside the
modelled set ends the parse as failed. -/
def from_stream_step (st : ParseState) (c : Byte) : ParseState :=
  if st.command then
    let st := { st with command := false }
    if c.val = 97 then -- %a
      let (i, is1) := scan_keyword st.is weekday_names
      let (wd, is2) := checked_set st.wd (if !is1.failbit then ((i % 7 : Nat) : Int) else not_a_weekday)
        not_a_weekday is1
      { st with wd := wd, is := is2 }
    else if c.val = 98 then -- %b
      let (i, is1) := scan_keyword st.is month_names
      let (m, is2) := checked_set st.m (if !is1.failbit then ((i % 12 + 1 : Nat) : Int) else not_a_month)
        not_a_month is1
      { st with m := m, is := is2 }
    else if c.val = 100 ∨ c.val = 101 then -- %d, %e
      let (td, is1) := read_signed st.is 1 2
      let (d, is2) := checked_set st.d td not_a_day is1
      { st with d := d, is := is2 }
    else if c.val = 72 then -- %H
      let (tH, is1) := read_unsigned st.is 1 2
      let (H, is2) := checked_set st.H tH not_a_hour is1
      { st with H := H, is := is2 }
    else if c.val = 73 then -- %I
      let (tI, is1) := read_signed st.is 1 2
      let is1 := if 1 ≤ tI ∧ tI ≤ 12 then is1 else is1.setfail
      let (I, is2) := checked_set st.I tI not_a_hour_12_value is1
      { st with I := I, is := is2 }
    else if c.val = 109 then -- %m
      let (tn, is1) := read_signed st.is 1 2
      let (m, is2) := checked_set st.m tn not_a_month is1
      { st with m := m, is := is2 }
    else if c.val = 77 then -- %M
      let (tM, is1) := read_unsigned st.is 1 2
      let (M, is2) := checked_set st.M tM not_a_minute is1
      { st with M := M, is := is2 }
    else if c.val = 112 then -- %p
      let (i, is1) := scan_keyword st.is ampm_names
      let (p, is2) := checked_set st.p i not_a_ampm is1
      { st with p := p, is := is2 }
    else if c.val = 83 then -- %S
      let (S, is1) := read_long_double st.is 1 6
      let (s, is2) := checked_set st.s S not_a_second is1
      { st with s := s, is := is2 }
    else if c.val = 84 then -- %T
      let (tH, is1) := read_unsigned st.is 1 2
      let is2 := if is1.failbit then is1 else read_char is1 58
      let (tM, is3) := if is2.failbit then (0, is2) else read_unsigned is2 1 2
      let is4 := if is3.failbit then is3 else read_char is3 58
      let (S, is5) := if is4.failbit then (0, is4) else read_long_double is4 1 6
      let (H, is6) := checked_set st.H tH not_a_hour is5
      let (M, is7) := checked_set st.M tM not_a_minute is6
      let (s, is8) := checked_set st.s S not_a_second is7
      { st with H := H, M := M, s := s, is := is8.ws }
    else if c.val = 121 then -- %y
      let (ty, is1) := read_unsigned st.is 1 2
      let (y, is2) := checked_set st.y ty not_a_2digit_year is1
      { st with y := y, is := is2 }
    else if c.val = 89 then -- %Y
      let (tY, is1) := read_signed st.is 1 4
      let (Y, is2) := checked_set st.Y tY not_a_year is1
      { st with Y := Y, is := is2 }
    else if c.val = 122 then -- %z
      let (toff, is1) := read_offset st.is
      let (off, is2) := checked_set st.temp_offset toff not_a_offset is1
      { st with temp_offset := off, is := is2 }
    else if c.val = 37 then -- %%
      { st with is := read_char st.is 37 }
    else { st with is := st.is.setfail }
  else if c.val = 37 then { st with command := true }
  else if isspace c then { st with is := if st.is.good then st.is.ws else st.is }
  else { st with is := read_char st.is c }

/-- The loop of `from_stream`: it stops at the end of the format or at the first failure. -/
def from_stream_loop (st : ParseState) : Str → ParseState
  | [] => st
  | c :: fmt => if st.is.failbit then st else from_stream_loop (from_stream_step st c) fmt

/-- `year::is_leap`. -/
def is_leap (y : Int) : Bool :=
  decide (y % 4 = 0) && (decide (y % 100 ≠ 0) || decide (y % 400 = 0))

/-- The last day of month `m` (from 1 to 12) in year `y`. -/
def last_day_of_month (y m : Int) : Int :=
  if m = 2 then (if is_leap y then 29 else 28)
  else if m = 4 ∨ m = 6 ∨ m = 9 ∨ m = 11 then 30
  else 31

/-- `year_month_day::ok()` for `year{Y}/m/d` with `int` arguments: the month and the day are
stored as `unsigned char`. -/
def ymd_ok (Y m d : Int) : Bool :=
  let mu := m % 256
  let du := d % 256
  decide (Y ≠ not_a_year) && decide (1 ≤ mu) && decide (mu ≤ 12) && decide (1 ≤ du)
    && decide (du ≤ last_day_of_month Y mu)

/-- `year_month_day::to_days()`: days since 1970-01-01 of a valid date. -/
def days_from_civil (Y m d : Int) : Int :=
  let y := Y - (if m ≤ 2 then 1 else 0)
  let era := cdiv (if y ≥ 0 then y else y - 399) 400
  let yoe := y - era * 400
  let doy := (153 * (if m > 2 then m - 3 else m + 9) + 2) / 5 + (d - 1)
  let doe := yoe * 365 + yoe / 4 - yoe / 100 + doy
  era * 146097 + doe - 719468

/-- `weekday::weekday_from_days`: 0 is Sunday. -/
def weekday_from_days (z : Int) : Int :=
  if z ≥ -4 then cmod (z + 4) 7 else cmod (z + 5) 7 + 6

/-- What `from_stream` leaves in `fields` and in the offset when it does not fail. -/
structure Fields where
  Y : Int
  m : Int
  d : Int
  h : Int
  min : Int
  s : Int
  offset : Int
  deriving DecidableEq, Repr

/-- The part of `from_stream` after the loop: a pending `%` must match a literal `%`, then the
fields are combined and checked; `none` stands for a stream left with `failbit`. -/
def from_stream_finish (st : ParseState) : Option Fields :=
  let is := if st.is.good && st.command then read_char st.is 37 else st.is
  if is.failbit then none
  else
    -- two-digit year
    let Y? : Option Int :=
      if st.y ≠ not_a_2digit_year then
        if ¬ (0 ≤ st.y ∧ st.y ≤ 99) then none
        else
          let C : Int :=
            if st.Y = not_a_year then (if st.y ≥ 69 then 19 else 20)
            else cdiv (if st.Y ≥ 0 then st.Y else st.Y - 100) 100
          let tY : Int := if C ≥ 0 then 100 * C + st.y else 100 * (C + 1) - (if st.y = 0 then 100 else st.y)
          if st.Y ≠ not_a_year ∧ st.Y ≠ tY then none else some tY
      else some st.Y
    match Y? with
    | none => none
    | some Y0 =>
      let Y : Int := if Y0 < -32767 ∨ Y0 > 32767 then not_a_year else Y0
      let ok := ymd_ok Y st.m st.d
      if ok && decide (st.wd ≠ not_a_weekday)
          && decide (st.wd ≠ weekday_from_days (days_from_civil Y (st.m % 256) (st.d % 256))) then none
      else
        -- 12-hour clock
        let H? : Option Int :=
          if st.I ≠ not_a_hour_12_value then
            if ¬ (1 ≤ st.I ∧ st.I ≤ 12) then none
            else if st.p ≠ not_a_ampm then
              let p := if st.I = 12 then st.p - 1 else st.p
              let I := st.I + p * 12
              if st.H = not_a_hour then some I
              else if I ≠ st.H then none
              else some st.H
            else if st.H ≠ not_a_hour then
              if st.I = 12 then (if st.H ≠ 0 ∧ st.H ≠ 12 then none else some st.H)
              else if ¬ (st.I = st.H ∨ st.I = st.H + 12) then none
              else some st.H
            else none
          else some st.H
        match H? with
        | none => none
        | some H =>
          some { Y := Y, m := st.m % 256, d := st.d % 256,
                 h := if H ≠ not_a_hour then H else 0,
                 min := if st.M ≠ not_a_minute then st.M else 0,
                 s := if st.s ≠ not_a_second then st.s else 0,
                 offset := if st.temp_offset ≠ not_a_offset then st.temp_offset else 0 }

/-- Modelled from the spec: `date::parse` of the header `date.h`, which `datum_parser.hpp`
includes and which is not among the sources.  The spec has each pattern tried by "a strict
parse" into "a timestamp"; the model is the library's `from_stream` into a
`sys_time<milliseconds>`: the format is walked by `from_stream_loop`, the fields are combined
by `from_stream_finish`, the parse fails unless the date is valid and the time of day is in
its conventional range, and the time point is the date minus the UTC offset plus the time of
day.  The format is passed as a C string, so it ends at its first zero byte; input left unread
after the format is not an error. -/
def date_parse : DateParser := fun pattern date_string =>
  let fmt := pattern.takeWhile fun c => decide (c.val ≠ 0)
  match from_stream_finish (from_stream_loop (ParseState.init date_string) fmt) with
  | none => none
  | some fds =>
      if !ymd_ok fds.Y fds.m fds.d || !(decide (fds.h < 24) && decide (fds.min < 60)
          && decide (fds.s < 60000)) then none
      else
        some (days_from_civil fds.Y fds.m fds.d * 86400000 - fds.offset * 60000
          + (fds.h * 3600000 + fds.min * 60000 + fds.s))

/-! ## Definitions on the side of the specification

The words of the claims, written independently of the code, and the concrete inputs used
below. -/

/-- An ASCII digit, in the words of the spec. -/
def IsDigit (c : Byte) : Prop := 48 ≤ c.val ∧ c.val ≤ 57

instance (c : Byte) : Decidable (IsDigit c) := by
  unfold IsDigit
  exact inferInstance

/-- The world after `Logging` has written the message `msg`. -/
def logged (w : World) (msg : Str) : World :=
  { w with cerr := w.cerr ++ RED ++ msg ++ RESET ++ [10] }

/-- The numeric value of a decimal numeral, in the words of the spec: the digits weighted by
the powers of ten, the last one being the units. -/
def decimalValue (s : Str) : Nat :=
  Nat.ofDigits 10 (s.reverse.map fun c => c.val - 48)

/-- A byte that `is_numeric` admits, in the words of the spec: a digit, a comma, a period, a
percent sign, a dollar sign, or a byte of value at least 156. -/
def LegalNumericByte (c : Byte) : Prop :=
  (48 ≤ c.val ∧ c.val ≤ 57) ∨ c.val = 44 ∨ c.val = 46 ∨ c.val = 37 ∨ c.val = 36 ∨ 156 ≤ c.val

instance (c : Byte) : Decidable (LegalNumericByte c) := by
  unfold LegalNumericByte
  exact inferInstance

/-- The string obtained by deleting the commas and every byte of value at least 127. -/
def deleteCommasAndHighBytes (s : Str) : Str :=
  s.filter fun c => !(decide (c.val = 44) || decide (127 ≤ c.val))

/-- The string obtained by deleting every byte other than digits and periods. -/
def keepDigitsAndPeriods (s : Str) : Str :=
  s.filter fun c => (decide (48 ≤ c.val) && decide (c.val ≤ 57)) || decide (c.val = 46)

/-- The digits of a numeral, read as one decimal number. -/
def numeralMantissa (s : Str) : Nat :=
  decimalValue (s.filter fun c => decide (48 ≤ c.val) && decide (c.val ≤ 57))

/-- The number of digits after the first period of a numeral. -/
def numeralScale (s : Str) : Nat :=
  ((s.dropWhile fun c => decide (c.val ≠ 46)).filter
    fun c => decide (48 ≤ c.val) && decide (c.val ≤ 57)).length

/-- The decimal `mant / 10 ^ scale` is in the range of `long double`: `strtold` reports neither
overflow nor underflow on it. -/
def InLongDoubleRange (mant scale : Nat) : Prop :=
  ld_overflow mant scale = false ∧ ld_underflow mant scale = false

instance (mant scale : Nat) : Decidable (InLongDoubleRange mant scale) := by
  unfold InLongDoubleRange
  exact inferInstance

/-- The numeral made of 5000 digits `9` followed by a period. -/
def nines_then_period : Str := List.replicate 5000 57 ++ [46]

/-- The world in which a call ends. -/
def Outcome.world {α : Type} : Outcome α → World
  | .returned _ w => w
  | .thrown _ w => w
  | .exited _ w => w

/-- The message of the invalid-instruction failure. -/
def empty_pattern_message : Str := ascii "Attempting to parse date with empty pattern"

/-- The message of a failed date conversion under an empty pattern. -/
def failed_empty_pattern_message (raw : Str) : Str :=
  ascii "Failed to convert: \x27" ++ raw ++ ascii "\x27 with pattern: \x27"
    ++ ascii "empty pattern" ++ ascii "\x27 to milliseconds"

/-- The message of the type-mismatch failure. -/
def visit_message : Str := ascii "Invalid type argument to visit"

/-- The call returns a value to its caller and leaves the severity as it was, or the severity
is `Terminate` and the call ends the process: in neither case does the caller receive an
error. -/
def ReturnsOrTerminates {α : Type} (m : Eff α) (w : World) : Prop :=
  (∃ v w1, m w = .returned v w1 ∧ w1.severity = w.severity)
    ∨ (w.severity = .Terminate ∧ ∃ c w1, m w = .exited c w1)

/-- The datum that the spec expects of `parse(raw, get_parse_instruction(raw))` when failures
are silent: the classification by priority, the converted value, and the sentinel `0` where
the conversion fails. -/
def silent_parse (dp : DateParser) (raw : Str) : Datum :=
  if is_integer raw then
    { entry := .long_long (match stoll (keepDigitsAndPeriods raw) with
        | .ok v => v
        | .error _ => 0),
      type := .Integer }
  else if is_numeric raw then
    { entry := .long_double (match stold (keepDigitsAndPeriods raw) with
        | .ok v => v
        | .error _ => 0),
      type := .Float }
  else
    match first_pattern dp raw date_patterns with
    | some p =>
        { entry := .unsigned_long (match dp p raw with
            | some tp => to_unsigned_long (tp / 86400000 * 86400000)
            | none => 0),
          type := .Date }
    | none => { entry := .text raw, type := .String }

/-- The variant that a tag implies: text for `String`, signed integer for `Integer`, floating
point for `Float`, `Currency` and `Percentage`, unsigned integer for `Date`. -/
def variant_of_tag : DataType → EntryType
  | .String => .text
  | .Integer => .long_long
  | .Float => .long_double
  | .Currency => .long_double
  | .Percentage => .long_double
  | .Date => .unsigned_long

/-- The entry that stores the value `v` in the alternative `T`. -/
def Entry.store : (T : EntryType) → T.carrier → Entry
  | .text, v => .text v
  | .long_double, v => .long_double v
  | .long_long, v => .long_long v
  | .unsigned_long, v => .unsigned_long v

/-- The string `"1%"` followed by 5000 digits `9`. -/
def one_percent_nines : Str := 49 :: 37 :: List.replicate 5000 57

/-! ## Lemmas on the effect type -/

theorem pure_run {α : Type} (v : α) (w : World) : (pure v : Eff α) w = .returned v w := rfl

theorem bind_run {α β : Type} (m : Eff α) (f : α → Eff β) (w : World) :
    (m >>= f) w = match m w with
      | .returned v w1 => f v w1
      | .thrown e w1 => .thrown e w1
      | .exited c w1 => .exited c w1 := rfl

theorem isdigit_iff (c : Byte) : isdigit c = true ↔ IsDigit c := by
  simp [isdigit, IsDigit]

theorem is_integer_iff (s : Str) : is_integer s = true ↔ s ≠ [] ∧ ∀ c ∈ s, IsDigit c := by
  simp only [is_integer, Bool.and_eq_true, Bool.not_eq_true', List.isEmpty_eq_false,
    Option.isNone_iff_eq_none, List.find?_eq_none]
  constructor
  · rintro ⟨h1, h2⟩
    refine ⟨h1, fun c hc => ?_⟩
    have := h2 c hc
    simpa [isdigit_iff] using this
  · rintro ⟨h1, h2⟩
    refine ⟨h1, fun c hc => ?_⟩
    simpa [isdigit_iff] using h2 c hc

/-- C1: for every non-empty string of ASCII digits, whatever the date parser and whatever the
severity and the log, `get_parse_instruction` returns the instruction of type `Integer` (with
an empty pattern), without reporting anything. -/
theorem get_parse_instruction_digits (dp : DateParser) (s : Str) (w : World)
    (hne : s ≠ []) (hd : ∀ c ∈ s, 48 ≤ c.val ∧ c.val ≤ 57) :
    get_parse_instruction dp s w = .returned { type := .Integer, pattern := [] } w := by
  have h : is_integer s = true := (is_integer_iff s).2 ⟨hne, hd⟩
  simp [get_parse_instruction, h, pure_run]

/-- The year-like string `"2020"` is classified as an integer at start-up. -/
theorem get_parse_instruction_digits_witness :
    (ascii "2020" ≠ [] ∧ ∀ c ∈ ascii "2020", 48 ≤ c.val ∧ c.val ≤ 57) ∧
    get_parse_instruction date_parse (ascii "2020") initialWorld
      = .returned { type := .Integer, pattern := [] } initialWorld :=
  ⟨by decide!, get_parse_instruction_digits date_parse (ascii "2020") initialWorld
    (by decide!) (by decide!)⟩
/-! ## Classification: the fallback to `String` and the order of the patterns -/

theorem first_pattern_none (dp : DateParser) (s : Str) (pats : List Pattern)
    (h : ∀ p ∈ pats, dp p s = none) : first_pattern dp s pats = none := by
  induction pats with
  | nil => rfl
  | cons a t ih =>
      have ha : dp a s = none := h a (List.mem_cons_self a t)
      have ht : ∀ p ∈ t, dp p s = none := fun p hp => h p (List.mem_cons_of_mem a hp)
      simp [first_pattern, ha, ih ht]

theorem first_pattern_first (dp : DateParser) (s : Str) (pats : List Pattern)
    (h : ∃ p ∈ pats, dp p s ≠ none) :
    ∃ (i : Nat) (p : Pattern), pats[i]? = some p ∧ first_pattern dp s pats = some p
      ∧ dp p s ≠ none ∧ ∀ (j : Nat) (q : Pattern), pats[j]? = some q → dp q s ≠ none → i ≤ j := by
  induction pats with
  | nil => simp at h
  | cons a t ih =>
      cases ha : dp a s with
      | some tp =>
          refine ⟨0, a, by simp, by simp [first_pattern, ha], by simp [ha], ?_⟩
          intro j q _ _
          exact Nat.zero_le j
      | none =>
          have ht : ∃ p ∈ t, dp p s ≠ none := by
            obtain ⟨p, hp, hps⟩ := h
            rcases List.mem_cons.1 hp with rfl | hp
            · exact absurd ha hps
            · exact ⟨p, hp, hps⟩
          obtain ⟨i, p, hip, hfp, hps, hmin⟩ := ih ht
          refine ⟨i + 1, p, by simpa using hip, by simp [first_pattern, ha, hfp], hps, ?_⟩
          intro j q hj hq
          cases j with
          | zero =>
              simp at hj
              subst hj
              exact absurd ha hq
          | succ k =>
              have := hmin k q (by simpa using hj) hq
              omega

theorem get_date_pattern_none (dp : DateParser) (s : Str) (w : World)
    (h : ∀ p ∈ date_patterns, dp p s = none) :
    get_date_pattern dp s w =
      match handle_error (ascii "Could not find date pattern for: " ++ s) w with
      | .returned _ w1 => .returned (ascii "invalid") w1
      | .thrown e w1 => .thrown e w1
      | .exited c w1 => .exited c w1 := by
  simp only [get_date_pattern, first_pattern_none dp s date_patterns h, bind_run]
  cases handle_error (ascii "Could not find date pattern for: " ++ s) w <;> rfl

theorem handle_error_silence (msg : Str) (w : World) (h : w.severity = .Silence) :
    handle_error msg w = .returned () w := by
  simp [handle_error, handle_error_with, h]

theorem handle_error_logging (msg : Str) (w : World) (h : w.severity = .Logging) :
    handle_error msg w = .returned () (logged w msg) := by
  simp [handle_error, handle_error_with, h, logged]

theorem handle_error_throw (msg : Str) (w : World) (h : w.severity = .Throw) :
    handle_error msg w = .thrown msg w := by
  simp [handle_error, handle_error_with, h]

theorem handle_error_terminate (msg : Str) (w : World) (h : w.severity = .Terminate) :
    handle_error msg w =
      .exited 1 { w with cerr := w.cerr ++ RED ++ msg ++ RESET ++ ascii " exit 1" ++ [10] } := by
  simp [handle_error, handle_error_with, h]

/-- When the severity lets a report return, `handle_error` returns and keeps the severity. -/
theorem handle_error_returns (msg : Str) (w : World)
    (h : w.severity = .Silence ∨ w.severity = .Logging) :
    ∃ w1, handle_error msg w = .returned () w1 ∧ w1.severity = w.severity := by
  rcases h with h | h
  · exact ⟨w, handle_error_silence msg w h, rfl⟩
  · exact ⟨logged w msg, handle_error_logging msg w h, rfl⟩

/-- A string that is not an integer, is not numeric and that no pattern parses: what
`get_parse_instruction` does is decided by the report of `get_date_pattern`. -/
theorem get_parse_instruction_unclassified (dp : DateParser) (s : Str) (w : World)
    (hint : is_integer s = false) (hnum : is_numeric s = false)
    (hdate : ∀ p ∈ date_patterns, dp p s = none) :
    get_parse_instruction dp s w =
      match handle_error (ascii "Could not find date pattern for: " ++ s) w with
      | .returned _ w1 => .returned { type := .String, pattern := [] } w1
      | .thrown e w1 => .thrown e w1
      | .exited c w1 => .exited c w1 := by
  simp only [get_parse_instruction, hint, hnum, Bool.false_eq_true, if_false, bind_run,
    get_date_pattern_none dp s w hdate]
  cases handle_error (ascii "Could not find date pattern for: " ++ s) w <;> simp [pure_run]

/-- C2, amended: under the severity `Silence` or `Logging`, for every string that is not an
integer, is not numeric and that no pattern of the list parses, `get_parse_instruction`
returns the instruction of type `String`; the severity is left as it was. -/
theorem get_parse_instruction_fallback (dp : DateParser) (s : Str) (w : World)
    (hint : is_integer s = false) (hnum : is_numeric s = false)
    (hdate : ∀ p ∈ date_patterns, dp p s = none)
    (hsev : w.severity = .Silence ∨ w.severity = .Logging) :
    ∃ w1, get_parse_instruction dp s w = .returned { type := .String, pattern := [] } w1
      ∧ w1.severity = w.severity := by
  obtain ⟨w1, hw1, hs1⟩ :=
    handle_error_returns (ascii "Could not find date pattern for: " ++ s) w hsev
  refine ⟨w1, ?_, hs1⟩
  rw [get_parse_instruction_unclassified dp s w hint hnum hdate, hw1]

/-- Under `Logging`, `"hello"` falls back to `String`. -/
theorem get_parse_instruction_fallback_witness :
    (is_integer (ascii "hello") = false ∧ is_numeric (ascii "hello") = false
      ∧ (∀ p ∈ date_patterns, date_parse p (ascii "hello") = none)
      ∧ ((⟨.Logging, []⟩ : World).severity = .Silence ∨ (⟨.Logging, []⟩ : World).severity = .Logging))
    ∧ ∃ w1, get_parse_instruction date_parse (ascii "hello") ⟨.Logging, []⟩
        = .returned { type := .String, pattern := [] } w1 ∧ w1.severity = .Logging :=
  ⟨by decide!, get_parse_instruction_fallback date_parse (ascii "hello") ⟨.Logging, []⟩
    (by decide!) (by decide!) (by decide!) (Or.inr rfl)⟩

/-- C2, as stated, fails at start-up: under the severity `Throw`, `"hello"` is not an integer,
is not numeric, no pattern parses it, and `get_parse_instruction` raises the error of
`get_date_pattern` instead of returning. -/
theorem get_parse_instruction_hello_throws :
    is_integer (ascii "hello") = false ∧ is_numeric (ascii "hello") = false
      ∧ (∀ p ∈ date_patterns, date_parse p (ascii "hello") = none)
      ∧ get_parse_instruction date_parse (ascii "hello") initialWorld
        = .thrown (ascii "Could not find date pattern for: hello") initialWorld := by
  decide!

/-- C8: for every string that some pattern of `date_patterns` parses, whatever the severity,
`get_date_pattern` returns the pattern of least index that parses it: every pattern of the
list that parses the string sits at that index or later. -/
theorem get_date_pattern_first (dp : DateParser) (s : Str) (w : World)
    (h : ∃ p ∈ date_patterns, dp p s ≠ none) :
    ∃ (i : Nat) (p : Pattern), date_patterns[i]? = some p
      ∧ get_date_pattern dp s w = .returned p w ∧ dp p s ≠ none
      ∧ ∀ (j : Nat) (q : Pattern), date_patterns[j]? = some q → dp q s ≠ none → i ≤ j := by
  obtain ⟨i, p, hip, hfp, hps, hmin⟩ := first_pattern_first dp s date_patterns h
  refine ⟨i, p, hip, ?_, hps, hmin⟩
  simp [get_date_pattern, hfp, pure_run]

/-- The string `"09/09/2020"` is parsed by `"%m/%d/%Y"`, so the first pattern that parses it is
returned. -/
theorem get_date_pattern_first_witness :
    (∃ p ∈ date_patterns, date_parse p (ascii "09/09/2020") ≠ none)
    ∧ ∃ (i : Nat) (p : Pattern), date_patterns[i]? = some p
      ∧ get_date_pattern date_parse (ascii "09/09/2020") initialWorld = .returned p initialWorld
      ∧ date_parse p (ascii "09/09/2020") ≠ none
      ∧ ∀ (j : Nat) (q : Pattern), date_patterns[j]? = some q → date_parse q (ascii "09/09/2020") ≠ none → i ≤ j :=
  ⟨⟨ascii "%m/%d/%Y", by decide!, by decide!⟩,
   get_date_pattern_first date_parse (ascii "09/09/2020") initialWorld
    ⟨ascii "%m/%d/%Y", by decide!, by decide!⟩⟩

/-! ## Integers -/

theorem digitsValue_append_singleton (s : Str) (c : Byte) :
    digitsValue (s ++ [c]) = 10 * digitsValue s + (c.val - 48) := by
  simp [digitsValue, List.foldl_append]

theorem digitsValue_eq_decimalValue (s : Str) : digitsValue s = decimalValue s := by
  induction s using List.reverseRecOn with
  | nil => rfl
  | append_singleton l c ih =>
      rw [digitsValue_append_singleton, ih]
      simp [decimalValue, Nat.ofDigits_cons, Nat.add_comm]

theorem filter_chars_eq_self (s : Str) (p : Byte → Bool) (h : ∀ c ∈ s, p c = true) :
    filter_chars s p = s := by
  simpa [filter_chars, List.filter_eq_self] using h

theorem digit_or_period_of_digit (c : Byte) (h : IsDigit c) : digit_or_period c = true := by
  obtain ⟨h1, h2⟩ := h
  simp [digit_or_period, h1, h2]

theorem isspace_of_digit (c : Byte) (h : IsDigit c) : isspace c = false := by
  obtain ⟨h1, h2⟩ := h
  simp only [isspace, Bool.or_eq_false_iff, Bool.and_eq_false_iff, decide_eq_false_iff_not]
  omega

/-- On a non-empty run of digits `std::stoll` reads the whole run. -/
theorem stoll_digits (s : Str) (hne : s ≠ []) (hd : ∀ c ∈ s, IsDigit c) :
    stoll s = if (2 : Int) ^ 63 - 1 < (digitsValue s : Int) then .error .out_of_range
      else .ok (digitsValue s : Int) := by
  obtain ⟨a, t, rfl⟩ := List.exists_cons_of_ne_nil hne
  have ha : IsDigit a := hd a (List.mem_cons_self a t)
  have hsp : (a :: t).dropWhile isspace = a :: t := by
    simp [List.dropWhile, isspace_of_digit a ha]
  have hsign : takeSign (a :: t) = (false, a :: t) := by
    obtain ⟨h1, h2⟩ := ha
    have h45 : ¬ a.val = 45 := by omega
    have h43 : ¬ a.val = 43 := by omega
    simp [takeSign, h45, h43]
  have htw : (a :: t).takeWhile isdigit = a :: t := by
    rw [List.takeWhile_eq_self_iff]
    intro c hc
    exact (isdigit_iff c).2 (hd c hc)
  have hnn : ¬ ((digitsValue (a :: t) : Int) < -(2 : Int) ^ 63) := by
    have : (0 : Int) ≤ (digitsValue (a :: t) : Int) := Int.natCast_nonneg _
    omega
  simp only [stoll, hsp, hsign, htw, List.isEmpty_cons, Bool.false_eq_true, if_false, hnn,
    false_or]

/-- C4, amended: for every non-empty string of ASCII digits, of any length, `is_integer` is
true; if its value is at most `2 ^ 63 - 1`, `parse_integer` returns the numeric value of the
numeral, whatever the severity; beyond that, `parse_integer` reports the failed conversion and
returns `0` if the report returns. -/
theorem parse_integer_digits (s : Str) (w : World) (hne : s ≠ [])
    (hd : ∀ c ∈ s, 48 ≤ c.val ∧ c.val ≤ 57) :
    is_integer s = true
    ∧ (decimalValue s ≤ 2 ^ 63 - 1 → parse_integer s w = .returned (decimalValue s : Int) w)
    ∧ (2 ^ 63 ≤ decimalValue s → parse_integer s w =
        match handle_error (ascii "Failed to convert: " ++ s ++ ascii " to long long") w with
        | .returned _ w1 => .returned 0 w1
        | .thrown e w1 => .thrown e w1
        | .exited c w1 => .exited c w1) := by
  have hf : filter_chars s digit_or_period = s :=
    filter_chars_eq_self s _ fun c hc => digit_or_period_of_digit c (hd c hc)
  have hcast : ((2 : Int) ^ 63 - 1 < (digitsValue s : Int)) ↔ 2 ^ 63 ≤ decimalValue s := by
    rw [digitsValue_eq_decimalValue]
    constructor
    · intro h
      have h1 : ((2 ^ 63 : Nat) : Int) ≤ (decimalValue s : Int) := by
        norm_num at h ⊢
        omega
      exact Int.ofNat_le.1 h1
    · intro h
      have h1 : ((2 ^ 63 : Nat) : Int) ≤ (decimalValue s : Int) := Int.ofNat_le.2 h
      norm_num at h1 ⊢
      omega
  refine ⟨(is_integer_iff s).2 ⟨hne, hd⟩, fun hr => ?_, fun hr => ?_⟩
  · have hle : ¬ ((2 : Int) ^ 63 - 1 < (digitsValue s : Int)) := by
      rw [hcast]
      omega
    rw [parse_integer, hf, stoll_digits s hne hd, if_neg hle, digitsValue_eq_decimalValue]
    rfl
  · rw [parse_integer, hf, stoll_digits s hne hd, if_pos (hcast.2 hr)]
    simp only [bind_run]
    cases handle_error (ascii "Failed to convert: " ++ s ++ ascii " to long long") w <;> rfl

/-- The string `"42"` is an integer and is converted to 42. -/
theorem parse_integer_digits_witness :
    (ascii "42" ≠ [] ∧ (∀ c ∈ ascii "42", 48 ≤ c.val ∧ c.val ≤ 57))
    ∧ is_integer (ascii "42") = true
    ∧ decimalValue (ascii "42") = 42
    ∧ parse_integer (ascii "42") initialWorld
        = .returned (decimalValue (ascii "42") : Int) initialWorld :=
  have h := parse_integer_digits (ascii "42") initialWorld (by decide!) (by decide!)
  ⟨by decide!, h.1, by decide!, h.2.1 (by decide!)⟩

/-- C4, as stated, fails beyond `long long`: `"9223372036854775808"` is a string of digits of
value `2 ^ 63`, `is_integer` accepts it, and `parse_integer` returns `0` under `Silence` and
raises under `Throw`. -/
theorem parse_integer_beyond_long_long :
    (∀ c ∈ ascii "9223372036854775808", 48 ≤ c.val ∧ c.val ≤ 57)
    ∧ is_integer (ascii "9223372036854775808") = true
    ∧ decimalValue (ascii "9223372036854775808") = 2 ^ 63
    ∧ parse_integer (ascii "9223372036854775808") ⟨.Silence, []⟩ = .returned 0 ⟨.Silence, []⟩
    ∧ parse_integer (ascii "9223372036854775808") initialWorld
      = .thrown (ascii "Failed to convert: 9223372036854775808 to long long") initialWorld := by
  decide!

/-! ## Numeric strings -/

theorem illegal_char_eq_false_iff (c : Byte) : illegal_char c = false ↔ LegalNumericByte c := by
  simp only [illegal_char, LegalNumericByte, Bool.not_eq_false', Bool.or_eq_true,
    Bool.and_eq_true, decide_eq_true_eq, ge_iff_le]
  tauto

theorem filter_chars_illegal_empty_iff (s : Str) :
    (filter_chars s illegal_char).length = 0 ↔ ∀ c ∈ s, LegalNumericByte c := by
  simp only [filter_chars, List.length_eq_zero, List.filter_eq_nil_iff, Bool.not_eq_true,
    illegal_char_eq_false_iff]

theorem filter_chars_below_127 (s : Str) :
    filter_chars s below_127_not_comma = deleteCommasAndHighBytes s := by
  unfold filter_chars deleteCommasAndHighBytes
  congr 1
  funext c
  simp only [below_127_not_comma, Bool.and_eq_true, decide_eq_true_eq]
  by_cases h1 : c.val = 44 <;> by_cases h2 : 127 ≤ c.val <;> simp [h1, h2]
  omega

theorem filter_chars_digit_or_period (s : Str) :
    filter_chars s digit_or_period = keepDigitsAndPeriods s := by
  unfold filter_chars keepDigitsAndPeriods
  congr 1
  funext c
  simp only [digit_or_period, ge_iff_le]
  exact Bool.or_comm _ _

/-- When `is_numeric` is true: the three conditions of the code, in the words of the spec. -/
theorem is_numeric_true_iff (s : Str) :
    is_numeric s = true ↔
      s ≠ [] ∧ (∀ c ∈ s, LegalNumericByte c)
        ∧ ∃ v, stold (deleteCommasAndHighBytes s) = .ok v := by
  unfold is_numeric
  cases s with
  | nil => simp
  | cons a t =>
      simp only [List.isEmpty_cons, Bool.false_eq_true, if_false, ne_eq, not_false_eq_true,
        true_and, reduceCtorEq]
      by_cases hl : (filter_chars (a :: t) illegal_char).length > 0
      · have hnot : ¬ ∀ c ∈ a :: t, LegalNumericByte c := by
          rw [← filter_chars_illegal_empty_iff]
          omega
        rw [if_pos hl]
        constructor
        · intro h
          cases h
        · rintro ⟨hall, _⟩
          exact absurd hall hnot
      · have hall : ∀ c ∈ a :: t, LegalNumericByte c := by
          rw [← filter_chars_illegal_empty_iff]
          omega
        rw [if_neg hl, filter_chars_below_127]
        cases hst : stold (deleteCommasAndHighBytes (a :: t)) with
        | ok v => simpa using hall
        | error e => simp

/-- What reaches `std::stold` in `is_numeric` holds only digits, periods, percent signs and
dollar signs: no white space, no sign and no letter. -/
theorem is_numeric_filtrate (s : Str) (h : (filter_chars s illegal_char).length = 0) :
    ∀ c ∈ filter_chars s below_127_not_comma,
      IsDigit c ∨ c.val = 46 ∨ c.val = 37 ∨ c.val = 36 := by
  intro c hc
  obtain ⟨hmem, hp⟩ := List.mem_filter.1 hc
  have hlegal := (filter_chars_illegal_empty_iff s).1 h c hmem
  simp only [below_127_not_comma, Bool.and_eq_true, decide_eq_true_eq] at hp
  rcases hlegal with h1 | h1 | h1 | h1 | h1 | h1
  · exact Or.inl h1
  · exact absurd h1 hp.2
  · exact Or.inr (Or.inl h1)
  · exact Or.inr (Or.inr (Or.inl h1))
  · exact Or.inr (Or.inr (Or.inr h1))
  · omega

/-- What reaches `std::stoll` in `parse_integer` and `std::stold` in `parse_float` holds only
digits and periods. -/
theorem digit_or_period_filtrate (s : Str) :
    ∀ c ∈ filter_chars s digit_or_period, IsDigit c ∨ c.val = 46 := by
  intro c hc
  have hp := (List.mem_filter.1 hc).2
  simp only [digit_or_period, Bool.or_eq_true, Bool.and_eq_true, decide_eq_true_eq,
    ge_iff_le] at hp
  rcases hp with h | h
  · exact Or.inr h
  · exact Or.inl h

/-- C5: `is_numeric` is true exactly on the non-empty strings whose bytes are all digits,
commas, periods, percent signs, dollar signs or of value at least 156, and for which the
string left after deleting the commas and the bytes of value at least 127 is converted by
`std::stold` without an exception; it is false exactly on the empty string, on a string with
another byte, and on a string for which the conversion throws. -/
theorem is_numeric_iff (s : Str) :
    (is_numeric s = true ↔
      s ≠ [] ∧ (∀ c ∈ s, LegalNumericByte c)
        ∧ ∃ v, stold (deleteCommasAndHighBytes s) = .ok v)
    ∧ (is_numeric s = false ↔
      s = [] ∨ (∃ c ∈ s, ¬ LegalNumericByte c)
        ∨ ∃ e, stold (deleteCommasAndHighBytes s) = .error e) := by
  refine ⟨is_numeric_true_iff s, ?_⟩
  rw [← Bool.not_eq_true, is_numeric_true_iff]
  constructor
  · intro h
    by_cases h1 : s = []
    · exact Or.inl h1
    · by_cases h2 : ∀ c ∈ s, LegalNumericByte c
      · right
        right
        cases hst : stold (deleteCommasAndHighBytes s) with
        | ok v => exact absurd ⟨h1, h2, v, hst⟩ h
        | error e => exact ⟨e, rfl⟩
      · right
        left
        push_neg at h2
        exact h2
  · rintro (h | ⟨c, hc, hn⟩ | ⟨e, he⟩) ⟨h1, h2, v, hv⟩
    · exact h1 h
    · exact hn (h2 c hc)
    · rw [he] at hv
      cases hv

/-- C6: the code rejects the number with a leading currency symbol.  Every byte of
`"$1,234.56"` is admitted, but the second filter keeps the `$`, `std::stold` finds no number
at the start of `"$1234.56"`, and `is_numeric` returns false; without the symbol it is true. -/
theorem is_numeric_leading_dollar :
    (∀ c ∈ ascii "$1,234.56", LegalNumericByte c)
    ∧ filter_chars (ascii "$1,234.56") below_127_not_comma = ascii "$1234.56"
    ∧ stold (ascii "$1234.56") = .error .invalid_argument
    ∧ is_numeric (ascii "$1,234.56") = false
    ∧ is_numeric (ascii "1,234.56") = true := by
  decide!

/-- `std::stold` converts the longest numeric prefix and ignores what follows it, so
`is_numeric` is true on `"1.2.3"` and on `"12%"`. -/
theorem is_numeric_prefix : is_numeric (ascii "1.2.3") = true ∧ is_numeric (ascii "12%") = true := by
  decide!

/-- C7: for every string, `parse_float` returns the value that `std::stold` gives to the string
left after deleting every byte other than digits and periods, whenever it gives one; so the
currency symbol and the commas do not count: `parse_float("$1,234.56")` and
`parse_float("1,234.56")` both return 1234.56, whatever the severity. -/
theorem parse_float_keeps_digits_and_periods :
    (∀ (s : Str) (v : LongDouble) (w : World), stold (keepDigitsAndPeriods s) = .ok v →
      parse_float s w = .returned v w)
    ∧ (∀ w : World, parse_float (ascii "$1,234.56") w = .returned (123456 / 100) w)
    ∧ (∀ w : World, parse_float (ascii "1,234.56") w = .returned (123456 / 100) w) := by
  have key : ∀ (s : Str) (v : LongDouble) (w : World), stold (keepDigitsAndPeriods s) = .ok v →
      parse_float s w = .returned v w := by
    intro s v w h
    rw [parse_float, filter_chars_digit_or_period, h]
    rfl
  refine ⟨key, fun w => key _ _ w (by decide!), fun w => key _ _ w (by decide!)⟩

/-- The percent sign of `"12.5%"` does not count. -/
theorem parse_float_keeps_digits_and_periods_witness :
    stold (keepDigitsAndPeriods (ascii "12.5%")) = .ok (125 / 10)
    ∧ parse_float (ascii "12.5%") initialWorld = .returned (125 / 10) initialWorld :=
  ⟨by decide!, parse_float_keeps_digits_and_periods.1 (ascii "12.5%") (125 / 10) initialWorld
    (by decide!)⟩

/-! ## Numerals with one period -/

theorem isdigit_period : isdigit 46 = false := by decide

theorem isspace_period : isspace 46 = false := by decide

/-- `std::stold` on `digits.digits`, with at least one digit on one side of the period. -/
theorem stold_decimal (ip fp : Str) (hip : ∀ c ∈ ip, IsDigit c) (hfp : ∀ c ∈ fp, IsDigit c)
    (hne : ip ≠ [] ∨ fp ≠ []) :
    stold (ip ++ 46 :: fp) =
      if ld_overflow (digitsValue (ip ++ fp)) fp.length
          || ld_underflow (digitsValue (ip ++ fp)) fp.length then .error .out_of_range
      else .ok ((digitsValue (ip ++ fp) : ℚ) / 10 ^ fp.length) := by
  have hhead : (ip ++ 46 :: fp).dropWhile isspace = ip ++ 46 :: fp
      ∧ takeSign (ip ++ 46 :: fp) = (false, ip ++ 46 :: fp) := by
    cases ip with
    | nil => exact ⟨by simp [isspace_period], rfl⟩
    | cons a t =>
        have ha : IsDigit a := hip a (List.mem_cons_self a t)
        obtain ⟨h1, h2⟩ := ha
        have h45 : ¬ a.val = 45 := by omega
        have h43 : ¬ a.val = 43 := by omega
        exact ⟨by simp [isspace_of_digit a ⟨h1, h2⟩], by simp [takeSign, h45, h43]⟩
  have hip1 : ∀ c ∈ ip, isdigit c = true := fun c hc => (isdigit_iff c).2 (hip c hc)
  have hfp1 : ∀ c ∈ fp, isdigit c = true := fun c hc => (isdigit_iff c).2 (hfp c hc)
  have htw : (ip ++ 46 :: fp).takeWhile isdigit = ip := by
    rw [List.takeWhile_append_of_pos hip1]
    simp [isdigit_period]
  have hdw : (ip ++ 46 :: fp).dropWhile isdigit = 46 :: fp := by
    rw [List.dropWhile_append_of_pos hip1]
    simp [isdigit_period]
  have hfw : fp.takeWhile isdigit = fp := List.takeWhile_eq_self_iff.2 hfp1
  have hemp : (ip.isEmpty && fp.isEmpty) = false := by
    rcases hne with h | h
    · simp [List.isEmpty_iff, h]
    · simp [List.isEmpty_iff, h]
  have h46 : ((46 : Byte) : Nat) = 46 := rfl
  simp only [stold, hhead.1, hhead.2, htw, hdw, hfw, h46, if_true, hemp,
    Bool.false_eq_true, if_false, one_mul]

theorem filter_digits_of_digits_commas (l : Str)
    (h : ∀ c ∈ l, IsDigit c ∨ c.val = 44) :
    deleteCommasAndHighBytes l = l.filter isdigit := by
  unfold deleteCommasAndHighBytes
  apply List.filter_congr
  intro c hc
  rcases h c hc with ⟨h1, h2⟩ | h1
  · have e1 : ¬ c.val = 44 := by omega
    have e2 : ¬ 127 ≤ c.val := by omega
    simp [isdigit, h1, h2, e1, e2]
  · have e1 : ¬ 48 ≤ c.val := by omega
    simp [isdigit, h1, e1]

theorem mem_filter_isdigit (l : Str) : ∀ c ∈ l.filter isdigit, IsDigit c := by
  intro c hc
  exact (isdigit_iff c).1 (List.mem_filter.1 hc).2

/-- A string of digits, commas and one period splits at the period. -/
theorem split_at_period (s : Str)
    (hchars : ∀ c ∈ s, (48 ≤ c.val ∧ c.val ≤ 57) ∨ c.val = 44 ∨ c.val = 46)
    (hper : s.count 46 = 1) :
    ∃ a b : Str, s = a ++ 46 :: b ∧ (∀ c ∈ a, IsDigit c ∨ c.val = 44)
      ∧ (∀ c ∈ b, IsDigit c ∨ c.val = 44) := by
  have hmem : (46 : Byte) ∈ s := List.count_pos_iff.1 (by omega)
  obtain ⟨a, b, rfl⟩ := List.append_of_mem hmem
  have hcount : List.count 46 a + List.count 46 b = 0 := by
    simp only [List.count_append, List.count_cons_self] at hper
    omega
  have ha : (46 : Byte) ∉ a := List.count_eq_zero.1 (by omega)
  have hb : (46 : Byte) ∉ b := List.count_eq_zero.1 (by omega)
  refine ⟨a, b, rfl, ?_, ?_⟩
  · intro c hc
    rcases hchars c (List.mem_append_left _ hc) with h | h | h
    · exact Or.inl h
    · exact Or.inr h
    · exact absurd ((show c = 46 from Fin.ext h) ▸ hc) ha
  · intro c hc
    rcases hchars c (List.mem_append_right _ (List.mem_cons_of_mem _ hc)) with h | h | h
    · exact Or.inl h
    · exact Or.inr h
    · exact absurd ((show c = 46 from Fin.ext h) ▸ hc) hb

/-- C3, amended: for every string of digits, commas and exactly one period, with at least one
digit, `is_integer` is false; if its value is in the range of `long double`, `is_numeric` is
true and `get_parse_instruction` returns the instruction of type `Float`, whatever the date
parser and the severity; if it is not, `is_numeric` is false. -/
theorem numeric_with_one_period (s : Str)
    (hchars : ∀ c ∈ s, (48 ≤ c.val ∧ c.val ≤ 57) ∨ c.val = 44 ∨ c.val = 46)
    (hper : s.count 46 = 1) (hdig : ∃ c ∈ s, 48 ≤ c.val ∧ c.val ≤ 57) :
    is_integer s = false
    ∧ (InLongDoubleRange (numeralMantissa s) (numeralScale s) →
        is_numeric s = true ∧ ∀ (dp : DateParser) (w : World),
          get_parse_instruction dp s w = .returned { type := .Float, pattern := [] } w)
    ∧ (¬ InLongDoubleRange (numeralMantissa s) (numeralScale s) → is_numeric s = false) := by
  obtain ⟨a, b, rfl, ha, hb⟩ := split_at_period s hchars hper
  have hfil : deleteCommasAndHighBytes (a ++ 46 :: b)
      = a.filter isdigit ++ 46 :: b.filter isdigit := by
    have h1 : deleteCommasAndHighBytes (a ++ 46 :: b)
        = deleteCommasAndHighBytes a ++ 46 :: deleteCommasAndHighBytes b := by
      simp only [deleteCommasAndHighBytes, List.filter_append]
      rfl
    rw [h1, filter_digits_of_digits_commas a ha, filter_digits_of_digits_commas b hb]
  have hdfil : (a ++ 46 :: b).filter isdigit = a.filter isdigit ++ b.filter isdigit := by
    rw [List.filter_append, List.filter_cons_of_neg (by simp [isdigit_period])]
  have hmant : numeralMantissa (a ++ 46 :: b)
      = digitsValue (a.filter isdigit ++ b.filter isdigit) := by
    rw [digitsValue_eq_decimalValue, ← hdfil]
    rfl
  have hscale : numeralScale (a ++ 46 :: b) = (b.filter isdigit).length := by
    have hdrop : (a ++ 46 :: b).dropWhile (fun c => decide (c.val ≠ 46)) = 46 :: b := by
      rw [List.dropWhile_append_of_pos]
      · rfl
      · intro c hc
        rcases ha c hc with ⟨h1, h2⟩ | h1
        · simp only [decide_eq_true_eq]
          omega
        · simp only [decide_eq_true_eq]
          omega
    unfold numeralScale
    rw [hdrop]
    show ((46 :: b).filter isdigit).length = _
    rw [List.filter_cons_of_neg (by simp [isdigit_period])]
  have hne : a.filter isdigit ≠ [] ∨ b.filter isdigit ≠ [] := by
    obtain ⟨c, hc, hcd⟩ := hdig
    have hcd1 : isdigit c = true := (isdigit_iff c).2 hcd
    rcases List.mem_append.1 hc with h | h
    · exact Or.inl (List.ne_nil_of_mem (List.mem_filter.2 ⟨h, hcd1⟩))
    · rcases List.mem_cons.1 h with h | h
      · rw [h, isdigit_period] at hcd1
        cases hcd1
      · exact Or.inr (List.ne_nil_of_mem (List.mem_filter.2 ⟨h, hcd1⟩))
  have hst := stold_decimal _ _ (mem_filter_isdigit a) (mem_filter_isdigit b) hne
  rw [← hmant, ← hscale, ← hfil] at hst
  have hint : is_integer (a ++ 46 :: b) = false := by
    cases h : is_integer (a ++ 46 :: b) with
    | false => rfl
    | true =>
        have hd := ((is_integer_iff _).1 h).2 46 (by simp)
        exact absurd hd (by decide)
  refine ⟨hint, fun hrange => ?_, fun hrange => ?_⟩
  · rw [hrange.1, hrange.2] at hst
    have hnum : is_numeric (a ++ 46 :: b) = true := by
      refine (is_numeric_true_iff _).2 ⟨by simp, ?_, ⟨_, hst⟩⟩
      intro c hc
      rcases hchars c hc with h | h | h
      · exact Or.inl h
      · exact Or.inr (Or.inl h)
      · exact Or.inr (Or.inr (Or.inl h))
    refine ⟨hnum, fun dp w => ?_⟩
    simp [get_parse_instruction, hint, hnum, pure_run]
  · have hor : (ld_overflow (numeralMantissa (a ++ 46 :: b)) (numeralScale (a ++ 46 :: b))
        || ld_underflow (numeralMantissa (a ++ 46 :: b)) (numeralScale (a ++ 46 :: b))) = true := by
      cases ho : ld_overflow (numeralMantissa (a ++ 46 :: b)) (numeralScale (a ++ 46 :: b))
      · cases hu : ld_underflow (numeralMantissa (a ++ 46 :: b)) (numeralScale (a ++ 46 :: b))
        · exact absurd ⟨ho, hu⟩ hrange
        · rfl
      · rfl
    rw [hor, if_pos rfl] at hst
    cases h : is_numeric (a ++ 46 :: b) with
    | false => rfl
    | true =>
        obtain ⟨_, _, v, hv⟩ := (is_numeric_true_iff _).1 h
        rw [hst] at hv
        cases hv

/-- The numeral `"1,234.56"` is classified as `Float`. -/
theorem numeric_with_one_period_witness :
    ((∀ c ∈ ascii "1,234.56", (48 ≤ c.val ∧ c.val ≤ 57) ∨ c.val = 44 ∨ c.val = 46)
      ∧ (ascii "1,234.56").count 46 = 1 ∧ (∃ c ∈ ascii "1,234.56", 48 ≤ c.val ∧ c.val ≤ 57)
      ∧ InLongDoubleRange (numeralMantissa (ascii "1,234.56")) (numeralScale (ascii "1,234.56")))
    ∧ is_integer (ascii "1,234.56") = false ∧ is_numeric (ascii "1,234.56") = true
      ∧ ∀ (dp : DateParser) (w : World),
          get_parse_instruction dp (ascii "1,234.56") w
            = .returned { type := .Float, pattern := [] } w :=
  have h := numeric_with_one_period (ascii "1,234.56") (by decide!) (by decide!)
    ⟨49, by decide!⟩
  ⟨⟨by decide!, by decide!, ⟨49, by decide!⟩, by decide!⟩, h.1, h.2.1 (by decide!)⟩

theorem digitsValue_replicate_nine (n : Nat) :
    digitsValue (List.replicate n 57) + 1 = 10 ^ n := by
  induction n with
  | zero => rfl
  | succ k ih =>
      have h57 : ((57 : Byte) : Nat) - 48 = 9 := rfl
      rw [List.replicate_succ', digitsValue_append_singleton, h57, pow_succ]
      omega

theorem ld_overflow_nines : ld_overflow (10 ^ 5000 - 1) 0 = true := by decide!

/-- C3, as stated, fails beyond the range of `long double`: the numeral of 5000 digits `9`
followed by a period is made of digits and one period, and `is_numeric` is false on it,
because `std::stold` reports `out_of_range`. -/
theorem nines_then_period_not_numeric :
    (∀ c ∈ nines_then_period, (48 ≤ c.val ∧ c.val ≤ 57) ∨ c.val = 44 ∨ c.val = 46)
    ∧ nines_then_period.count 46 = 1
    ∧ (∃ c ∈ nines_then_period, 48 ≤ c.val ∧ c.val ≤ 57)
    ∧ stold (filter_chars nines_then_period below_127_not_comma) = .error .out_of_range
    ∧ is_numeric nines_then_period = false := by
  have hall : ∀ c ∈ List.replicate 5000 (57 : Byte), IsDigit c := by
    intro c hc
    rw [(List.mem_replicate.1 hc).2]
    decide
  have hval : digitsValue (List.replicate 5000 (57 : Byte) ++ []) = 10 ^ 5000 - 1 := by
    have := digitsValue_replicate_nine 5000
    rw [List.append_nil]
    omega
  have hst : stold nines_then_period = .error .out_of_range := by
    have hmem : (57 : Byte) ∈ List.replicate 5000 (57 : Byte) :=
      List.mem_replicate.2 ⟨by decide, rfl⟩
    have h := stold_decimal (List.replicate 5000 57) [] hall (by simp)
      (Or.inl (List.ne_nil_of_mem hmem))
    rw [hval, List.length_nil, ld_overflow_nines] at h
    exact h
  have hfil : filter_chars nines_then_period below_127_not_comma = nines_then_period := by
    apply filter_chars_eq_self
    intro c hc
    rcases List.mem_append.1 hc with h | h
    · rw [(List.mem_replicate.1 h).2]
      decide
    · rw [List.mem_singleton.1 h]
      decide
  have hmem57 : (57 : Byte) ∈ nines_then_period :=
    List.mem_append_left _ (List.mem_replicate.2 ⟨by decide, rfl⟩)
  refine ⟨?_, ?_, ⟨57, hmem57, by decide⟩, by rw [hfil, hst], ?_⟩
  · intro c hc
    rcases List.mem_append.1 hc with h | h
    · exact Or.inl (hall c h)
    · exact Or.inr (Or.inr (by rw [List.mem_singleton.1 h]; rfl))
  · show List.count 46 (List.replicate 5000 (57 : Byte) ++ [46]) = 1
    rw [List.count_append, List.count_replicate]
    rfl
  · cases h : is_numeric nines_then_period with
    | false => rfl
    | true =>
        obtain ⟨_, _, v, hv⟩ := (is_numeric_true_iff _).1 h
        rw [← filter_chars_below_127, hfil, hst] at hv
        cases hv

/-! ## The date `2020-09-09` -/

/-- C9: `get_parse_instruction("2020-09-09")` returns the instruction of type `Date` with the
pattern `"%Y-%m-%d"`, whatever the severity: that pattern is the entry of index 22 of the list,
none of the 22 entries before it parses the string, and it does. -/
theorem get_parse_instruction_iso_date :
    (∀ w : World, get_parse_instruction date_parse (ascii "2020-09-09") w
        = .returned { type := .Date, pattern := ascii "%Y-%m-%d" } w)
    ∧ date_patterns[22]? = some (ascii "%Y-%m-%d")
    ∧ (∀ p ∈ date_patterns.take 22, date_parse p (ascii "2020-09-09") = none)
    ∧ date_parse (ascii "%Y-%m-%d") (ascii "2020-09-09") = some 1599609600000 := by
  have hint : is_integer (ascii "2020-09-09") = false := by decide!
  have hnum : is_numeric (ascii "2020-09-09") = false := by decide!
  have hfp : first_pattern date_parse (ascii "2020-09-09") date_patterns
      = some (ascii "%Y-%m-%d") := by decide!
  have hinv : ascii "%Y-%m-%d" ≠ ascii "invalid" := by decide!
  refine ⟨fun w => ?_, by decide!, by decide!, by decide!⟩
  have hgd : get_date_pattern date_parse (ascii "2020-09-09") w
      = .returned (ascii "%Y-%m-%d") w := by
    simp only [get_date_pattern, hfp, pure_run]
  simp only [get_parse_instruction, hint, hnum, Bool.false_eq_true, if_false, bind_run, hgd,
    hinv, ne_eq, not_false_eq_true, if_true, pure_run]

/-- C10: `parse("2020-09-09", {Date, "%Y-%m-%d"})` returns, whatever the severity, a datum
tagged `Date` that stores 1599609600000, the milliseconds from the epoch to
2020-09-09T00:00:00 UTC, which is 18514 days of 86400000 milliseconds. -/
theorem parse_iso_date :
    (∀ w : World, parse date_parse (ascii "2020-09-09")
          { type := .Date, pattern := ascii "%Y-%m-%d" } w
        = .returned { entry := .unsigned_long 1599609600000, type := .Date } w)
    ∧ days_from_civil 2020 9 9 = 18514
    ∧ (1599609600000 : Nat) = 18514 * 86400000 := by
  have hdp : date_parse (ascii "%Y-%m-%d") (ascii "2020-09-09") = some 1599609600000 := by
    decide!
  have hne : ¬ (ascii "%Y-%m-%d" = []) := by decide!
  have hval : to_unsigned_long ((1599609600000 : Int) / 86400000 * 86400000) = 1599609600000 := by
    decide!
  refine ⟨fun w => ?_, by decide!, by decide!⟩
  have hpd : parse_date date_parse (ascii "2020-09-09") (ascii "%Y-%m-%d") w
      = .returned 1599609600000 w := by
    simp only [parse_date, hdp, hval, pure_run]
  simp only [parse, hne, if_false, bind_run, pure_run, hpd]

/-! ## The range of `long double`, for short numerals -/

theorem digitsValue_lt (l : Str) (h : ∀ c ∈ l, IsDigit c) : digitsValue l < 10 ^ l.length := by
  induction l using List.reverseRecOn with
  | nil => decide
  | append_singleton l c ih =>
      have hl : digitsValue l < 10 ^ l.length :=
        ih fun d hd => h d (List.mem_append_left _ hd)
      obtain ⟨_, hc⟩ := h c (List.mem_append_right _ (List.mem_singleton_self c))
      rw [digitsValue_append_singleton, List.length_append, List.length_singleton, pow_succ]
      omega

theorem ten_pow_4900_lt : 10 ^ 4900 < 2 ^ 16384 - 2 ^ 16319 := by decide!

theorem ten_pow_4900_le : (2 ^ 65 - 1) * 10 ^ 4900 ≤ 2 ^ 16447 := by decide!

set_option exponentiation.threshold 20000 in
/-- A decimal with at most 4900 digits and a scale of at most 4900 is in the range of
`long double`. -/
theorem inLongDoubleRange_of_le (mant scale : Nat) (hm : mant < 10 ^ 4900)
    (hs : scale ≤ 4900) : InLongDoubleRange mant scale := by
  have hpos : 1 ≤ 10 ^ scale := Nat.one_le_pow _ _ (by decide)
  have hmono : 10 ^ scale ≤ 10 ^ 4900 := Nat.pow_le_pow_right (by norm_num) hs
  constructor
  · simp only [ld_overflow, decide_eq_false_iff_not, not_le]
    calc mant < 10 ^ 4900 := hm
      _ < 2 ^ 16384 - 2 ^ 16319 := ten_pow_4900_lt
      _ = (2 ^ 16384 - 2 ^ 16319) * 1 := (Nat.mul_one _).symm
      _ ≤ (2 ^ 16384 - 2 ^ 16319) * 10 ^ scale := Nat.mul_le_mul_left _ hpos
  · by_cases h0 : mant = 0
    · simp [ld_underflow, h0]
    · have h1 : 1 ≤ mant := Nat.one_le_iff_ne_zero.2 h0
      have hge : (2 ^ 65 - 1) * 10 ^ scale ≤ mant * 2 ^ 16447 :=
        calc (2 ^ 65 - 1) * 10 ^ scale ≤ (2 ^ 65 - 1) * 10 ^ 4900 := Nat.mul_le_mul_left _ hmono
          _ ≤ 2 ^ 16447 := ten_pow_4900_le
          _ = 1 * 2 ^ 16447 := (Nat.one_mul _).symm
          _ ≤ mant * 2 ^ 16447 := Nat.mul_le_mul_right _ h1
      have hnot : ¬ (mant * 2 ^ 16447 < (2 ^ 65 - 1) * 10 ^ scale) := Nat.not_lt.2 hge
      simp only [ld_underflow, Bool.and_eq_false_iff, decide_eq_false_iff_not, hnot,
        not_false_eq_true, or_true, true_or]

set_option exponentiation.threshold 20000 in
/-- Every numeral of at most 4900 bytes is in the range of `long double`. -/
theorem inLongDoubleRange_of_length_le (s : Str) (h : s.length ≤ 4900) :
    InLongDoubleRange (numeralMantissa s) (numeralScale s) := by
  apply inLongDoubleRange_of_le
  · have hlen : (s.filter isdigit).length ≤ 4900 := le_trans (List.length_filter_le _ _) h
    have hlt := digitsValue_lt (s.filter isdigit) (mem_filter_isdigit s)
    have hpow : 10 ^ (s.filter isdigit).length ≤ 10 ^ 4900 := Nat.pow_le_pow_right (by norm_num) hlen
    show decimalValue (s.filter isdigit) < 10 ^ 4900
    rw [← digitsValue_eq_decimalValue]
    exact lt_of_lt_of_le hlt hpow
  · unfold numeralScale
    refine le_trans (List.length_filter_le _ _) (le_trans ?_ h)
    exact (List.dropWhile_sublist _).length_le

/-! ## The day floor of `parse_date` -/

theorem to_unsigned_long_cast (x : Int) :
    ((to_unsigned_long x : Nat) : Int) = x % 18446744073709551616 := by
  unfold to_unsigned_long
  have e : (2 : Int) ^ 64 = 18446744073709551616 := by norm_num
  rw [e]
  exact Int.toNat_of_nonneg (Int.emod_nonneg _ (by norm_num))

theorem to_unsigned_long_day_floor (tp : Int) (h0 : 0 ≤ tp) (h1 : tp < 9223372036854775808) :
    to_unsigned_long (tp / 86400000 * 86400000) = (tp / 86400000).toNat * 86400000 := by
  have hq : 0 ≤ tp / 86400000 := Int.ediv_nonneg h0 (by norm_num)
  apply Int.ofNat_inj.1
  rw [to_unsigned_long_cast]
  push_cast
  rw [Int.toNat_of_nonneg hq]
  omega

theorem to_unsigned_long_before_epoch (tp : Int) (h0 : tp < 0)
    (h1 : -9223372036854775808 ≤ tp) :
    ¬ (86400000 ∣ to_unsigned_long (tp / 86400000 * 86400000)) := by
  rintro ⟨k, hk⟩
  have h2 := to_unsigned_long_cast (tp / 86400000 * 86400000)
  have hlt : tp / 86400000 * 86400000 < 0 := by omega
  have hge : -9223372036854775808 - 86400000 ≤ tp / 86400000 * 86400000 := by omega
  have hmod : tp / 86400000 * 86400000 % 18446744073709551616
      = tp / 86400000 * 86400000 + 18446744073709551616 := by
    rw [← Int.add_emod_self]
    exact Int.emod_eq_of_lt (by omega) (by omega)
  rw [hk, hmod] at h2
  push_cast at h2
  omega

theorem parse_date_of_some (dp : DateParser) (s : Str) (pattern : Pattern) (tp : Int)
    (w : World) (hp : dp pattern s = some tp) :
    parse_date dp s pattern w = .returned (to_unsigned_long (tp / 86400000 * 86400000)) w := by
  simp only [parse_date, hp, pure_run]

/-- C11, amended: for every date string and pattern that parse to a time point at or after
1970-01-01T00:00:00 UTC, `parse_date` returns the whole days since the epoch times 86400000, an
exact multiple of 86400000; for a time point before the epoch the negative count is converted
to `unsigned long`, and what `parse_date` returns is not a multiple of 86400000. -/
theorem parse_date_day_floor (dp : DateParser) (s : Str) (pattern : Pattern) (tp : Int)
    (w : World) (hp : dp pattern s = some tp)
    (hlo : -9223372036854775808 ≤ tp) (hhi : tp < 9223372036854775808) :
    ∃ v : Nat, parse_date dp s pattern w = .returned v w
      ∧ (0 ≤ tp → v = (tp / 86400000).toNat * 86400000 ∧ 86400000 ∣ v)
      ∧ (tp < 0 → ¬ 86400000 ∣ v) := by
  refine ⟨_, parse_date_of_some dp s pattern tp w hp, fun h0 => ?_, fun h0 => ?_⟩
  · rw [to_unsigned_long_day_floor tp h0 hhi]
    exact ⟨rfl, Dvd.intro_left _ rfl⟩
  · exact to_unsigned_long_before_epoch tp h0 hlo

/-- The date `2020-09-09` with the time `23:59:59` is floored to day 18514. -/
theorem parse_date_day_floor_witness :
    date_parse (ascii "%Y-%m-%d %H:%M:%S") (ascii "2020-09-09 23:59:59") = some 1599695999000
    ∧ ∃ v : Nat, parse_date date_parse (ascii "2020-09-09 23:59:59") (ascii "%Y-%m-%d %H:%M:%S")
          initialWorld = .returned v initialWorld
      ∧ ((0 : Int) ≤ 1599695999000 →
          v = ((1599695999000 : Int) / 86400000).toNat * 86400000 ∧ 86400000 ∣ v)
      ∧ ((1599695999000 : Int) < 0 → ¬ 86400000 ∣ v) :=
  ⟨by decide!, parse_date_day_floor date_parse (ascii "2020-09-09 23:59:59")
    (ascii "%Y-%m-%d %H:%M:%S") 1599695999000 initialWorld (by decide!) (by decide!)
    (by decide!)⟩

/-- C11, as stated, fails before 1970: `"1969-12-31"` parses under `"%Y-%m-%d"` to the time
point -86400000, and `parse_date` returns `2 ^ 64 - 86400000`, which is not a multiple of
86400000. -/
theorem parse_date_before_epoch :
    date_parse (ascii "%Y-%m-%d") (ascii "1969-12-31") = some (-86400000)
    ∧ parse_date date_parse (ascii "1969-12-31") (ascii "%Y-%m-%d") initialWorld
        = .returned 18446744073623151616 initialWorld
    ∧ (18446744073623151616 : Nat) = 2 ^ 64 - 86400000
    ∧ ¬ (86400000 ∣ (18446744073623151616 : Nat)) := by
  decide!

/-! ## The error policy -/

/-- C15: `handle_error(e, msg)` returns with no output for `Silence`, writes `msg` (between the
colour codes, with a newline) to `std::cerr` and returns for `Logging`, raises an error
carrying exactly `msg` for `Throw`, and writes `msg` and ends the process with status 1 for
`Terminate`; `handle_error(msg)` is `handle_error(g, msg)` for the global severity `g`; and in
every case the global severity is left as it was. -/
theorem handle_error_by_severity (msg : Str) (w : World) :
    handle_error_with .Silence msg w = .returned () w
    ∧ handle_error_with .Logging msg w
        = .returned () { severity := w.severity, cerr := w.cerr ++ RED ++ msg ++ RESET ++ [10] }
    ∧ handle_error_with .Throw msg w = .thrown msg w
    ∧ handle_error_with .Terminate msg w
        = .exited 1 { severity := w.severity,
                      cerr := w.cerr ++ RED ++ msg ++ RESET ++ ascii " exit 1" ++ [10] }
    ∧ handle_error msg w = handle_error_with w.severity msg w
    ∧ (∀ e : ErrorSeverity, (handle_error_with e msg w).world.severity = w.severity)
    ∧ (handle_error msg w).world.severity = w.severity := by
  have hkeep : ∀ e : ErrorSeverity, (handle_error_with e msg w).world.severity = w.severity := by
    intro e
    cases e <;> rfl
  exact ⟨rfl, rfl, rfl, rfl, rfl, hkeep, hkeep w.severity⟩

/-! ## A date instruction without a pattern -/

theorem date_parse_empty_pattern (raw : Str) : date_parse [] raw = none := rfl

theorem parse_date_of_none (dp : DateParser) (raw : Str) (w : World) (hdp : dp [] raw = none) :
    parse_date dp raw [] w =
      (handle_error (failed_empty_pattern_message raw) >>= fun _ => pure 0) w := by
  simp only [parse_date, hdp, List.isEmpty_nil, if_true]
  rfl

/-- A `Date` instruction with an empty pattern, when the date parser fails on the empty format:
two reports, then the sentinel. -/
theorem parse_empty_pattern (dp : DateParser) (raw : Str) (w : World) (hdp : dp [] raw = none) :
    parse dp raw { type := .Date, pattern := [] } w =
      (handle_error empty_pattern_message >>= fun _ =>
        handle_error (failed_empty_pattern_message raw) >>= fun _ =>
          pure { entry := .unsigned_long 0, type := .Date }) w := by
  simp only [parse, if_true, bind_run, empty_pattern_message]
  cases h1 : handle_error (ascii "Attempting to parse date with empty pattern") w with
  | returned v w1 =>
      simp only [parse_date_of_none dp raw w1 hdp, bind_run]
      cases handle_error (failed_empty_pattern_message raw) w1 <;> rfl
  | thrown e w1 => rfl
  | exited c w1 => rfl

theorem visit_of_holds (v : Nat) (t : DataType) (visitor : Nat → Eff Unit) (w : World) :
    Datum.visit { entry := .unsigned_long v, type := t } .unsigned_long visitor w
      = try_catch_all (visitor v) (handle_error visit_message) w := rfl

/-- C12: for every raw string, `parse(raw, {Date, ""})` reports the invalid-instruction failure
and then the failed conversion, and returns the sentinel datum if both reports return: under
`Silence` with nothing written, under `Logging` with the two messages written, while `Throw`
raises the first message.  The datum is tagged `Date` and stores the unsigned value 0, which
`visit<unsigned long>` hands to its callback; this is what the test program does with
`"2020/09/dog09"` under `Logging`. -/
theorem parse_date_without_pattern (raw : Str) (w : World) :
    parse date_parse raw { type := .Date, pattern := [] } w
      = (handle_error empty_pattern_message >>= fun _ =>
          handle_error (failed_empty_pattern_message raw) >>= fun _ =>
            pure { entry := .unsigned_long 0, type := .Date }) w
    ∧ (w.severity = .Silence →
        parse date_parse raw { type := .Date, pattern := [] } w
          = .returned { entry := .unsigned_long 0, type := .Date } w)
    ∧ (w.severity = .Logging →
        parse date_parse raw { type := .Date, pattern := [] } w
          = .returned { entry := .unsigned_long 0, type := .Date }
              (logged (logged w empty_pattern_message) (failed_empty_pattern_message raw)))
    ∧ (w.severity = .Throw →
        parse date_parse raw { type := .Date, pattern := [] } w
          = .thrown empty_pattern_message w)
    ∧ (∀ (visitor : Nat → Eff Unit) (w1 : World),
        Datum.visit { entry := .unsigned_long 0, type := .Date } .unsigned_long visitor w1
          = try_catch_all (visitor 0) (handle_error visit_message) w1)
    ∧ (∀ (visitor : Nat → Eff Unit),
        test_main date_parse visitor w
          = try_catch_all (visitor 0) (handle_error visit_message)
              (logged (logged { w with severity := .Logging } empty_pattern_message)
                (failed_empty_pattern_message (ascii "2020/09/dog09")))) := by
  have hparse : ∀ (r : Str) (w0 : World),
      parse date_parse r { type := .Date, pattern := [] } w0
        = (handle_error empty_pattern_message >>= fun _ =>
            handle_error (failed_empty_pattern_message r) >>= fun _ =>
              pure { entry := .unsigned_long 0, type := .Date }) w0 :=
    fun r w0 => parse_empty_pattern date_parse r w0 (date_parse_empty_pattern r)
  have hlog : ∀ (r : Str) (w0 : World), w0.severity = .Logging →
      parse date_parse r { type := .Date, pattern := [] } w0
        = .returned { entry := .unsigned_long 0, type := .Date }
            (logged (logged w0 empty_pattern_message) (failed_empty_pattern_message r)) := by
    intro r w0 h
    have h1 : (logged w0 empty_pattern_message).severity = .Logging := h
    rw [hparse, bind_run, handle_error_logging _ w0 h]
    simp only [bind_run, handle_error_logging _ _ h1, pure_run]
  refine ⟨hparse raw w, fun h => ?_, hlog raw w, fun h => ?_, fun visitor w1 => rfl,
    fun visitor => ?_⟩
  · rw [hparse, bind_run, handle_error_silence _ w h]
    simp only [bind_run, handle_error_silence _ w h, pure_run]
  · rw [hparse, bind_run, handle_error_throw _ w h]
  · have h2 := hlog (ascii "2020/09/dog09") { w with severity := .Logging } rfl
    simp only [test_main, bind_run, set_error_severity, h2]
    rfl

/-- Under `Logging`, the malformed date of the test program gives the sentinel. -/
theorem parse_date_without_pattern_witness :
    (⟨.Logging, []⟩ : World).severity = .Logging
    ∧ parse date_parse (ascii "2020/09/dog09") { type := .Date, pattern := [] } ⟨.Logging, []⟩
        = .returned { entry := .unsigned_long 0, type := .Date }
            (logged (logged ⟨.Logging, []⟩ empty_pattern_message)
              (failed_empty_pattern_message (ascii "2020/09/dog09"))) :=
  ⟨rfl, (parse_date_without_pattern (ascii "2020/09/dog09") ⟨.Logging, []⟩).2.2.1 rfl⟩

/-! ## Silent parsing -/

theorem first_pattern_some (dp : DateParser) (s : Str) (pats : List Pattern) (p : Pattern)
    (h : first_pattern dp s pats = some p) : p ∈ pats ∧ ∃ tp, dp p s = some tp := by
  induction pats with
  | nil => simp [first_pattern] at h
  | cons a t ih =>
      cases ha : dp a s with
      | some tp =>
          simp only [first_pattern, ha, Option.some.injEq] at h
          subst h
          exact ⟨List.mem_cons_self _ _, tp, ha⟩
      | none =>
          simp only [first_pattern, ha] at h
          obtain ⟨hm, htp⟩ := ih h
          exact ⟨List.mem_cons_of_mem _ hm, htp⟩

theorem invalid_not_a_pattern : ascii "invalid" ∉ date_patterns := by decide!

theorem empty_not_a_pattern : ([] : Pattern) ∉ date_patterns := by decide!

theorem parse_integer_silence (s : Str) (w : World) (h : w.severity = .Silence) :
    parse_integer s w = .returned (match stoll (keepDigitsAndPeriods s) with
      | .ok v => v
      | .error _ => 0) w := by
  rw [parse_integer, filter_chars_digit_or_period]
  cases stoll (keepDigitsAndPeriods s) with
  | ok v => rfl
  | error e => simp only [bind_run, handle_error_silence _ w h, pure_run]

theorem parse_float_silence (s : Str) (w : World) (h : w.severity = .Silence) :
    parse_float s w = .returned (match stold (keepDigitsAndPeriods s) with
      | .ok v => v
      | .error _ => 0) w := by
  rw [parse_float, filter_chars_digit_or_period]
  cases stold (keepDigitsAndPeriods s) with
  | ok v => rfl
  | error e => simp only [bind_run, handle_error_silence _ w h, pure_run]

/-- Under `Silence` the classification followed by the conversion returns the datum of
`silent_parse` and leaves the world as it was. -/
theorem parse_classified_silence (dp : DateParser) (raw : Str) (w : World)
    (h : w.severity = .Silence) :
    (get_parse_instruction dp raw >>= fun i => parse dp raw i) w
      = .returned (silent_parse dp raw) w := by
  rw [bind_run]
  unfold get_parse_instruction silent_parse
  by_cases hint : is_integer raw = true
  · simp only [hint, if_true, pure_run, parse, bind_run, parse_integer_silence raw w h]
  · by_cases hnum : is_numeric raw = true
    · simp only [hint, hnum, if_true, if_false, pure_run, parse, bind_run,
        parse_float_silence raw w h, Bool.false_eq_true]
    · simp only [hint, hnum, if_false, bind_run, get_date_pattern, Bool.false_eq_true]
      cases hfp : first_pattern dp raw date_patterns with
      | none =>
          simp only [bind_run, handle_error_silence _ w h, pure_run, ne_eq, not_true_eq_false,
            if_false, parse]
      | some p =>
          obtain ⟨hmem, tp, htp⟩ := first_pattern_some dp raw date_patterns p hfp
          have hinv : p ≠ ascii "invalid" := fun e => invalid_not_a_pattern (e ▸ hmem)
          have hne : ¬ (p = []) := fun e => empty_not_a_pattern (e ▸ hmem)
          simp only [pure_run, hinv, ne_eq, not_false_eq_true, if_true, parse, hne, if_false,
            bind_run, parse_date_of_some dp raw p tp w htp, htp]

/-- C13: with the severity `Silence`, for every raw string and whatever the date parser,
`parse(raw, get_parse_instruction(raw))` returns a datum, raises nothing and writes nothing;
the datum is the one of `silent_parse`, a function of the raw string alone, which holds the
sentinel 0 where the conversion of an integer or of a number fails. -/
theorem parse_silent (dp : DateParser) (raw : Str) (w : World) (h : w.severity = .Silence) :
    (get_parse_instruction dp raw >>= fun i => parse dp raw i) w
        = .returned (silent_parse dp raw) w
    ∧ parse_classified dp raw w = .returned (silent_parse dp raw) w
    ∧ (is_integer raw = true → (∃ e, stoll (keepDigitsAndPeriods raw) = .error e) →
        silent_parse dp raw = { entry := .long_long 0, type := .Integer })
    ∧ (is_integer raw = false → is_numeric raw = true →
        (∃ e, stold (keepDigitsAndPeriods raw) = .error e) →
        silent_parse dp raw = { entry := .long_double 0, type := .Float }) := by
  refine ⟨parse_classified_silence dp raw w h, parse_classified_silence dp raw w h, ?_, ?_⟩
  · rintro hint ⟨e, he⟩
    simp only [silent_parse, hint, if_true, he]
  · rintro hint hnum ⟨e, he⟩
    simp only [silent_parse, hint, hnum, if_true, if_false, he, Bool.false_eq_true]

/-- Under `Silence`, the malformed date `"2020/09/dog09"` comes back as text. -/
theorem parse_silent_witness :
    (⟨.Silence, []⟩ : World).severity = .Silence
    ∧ silent_parse date_parse (ascii "2020/09/dog09")
        = { entry := .text (ascii "2020/09/dog09"), type := .String }
    ∧ parse_classified date_parse (ascii "2020/09/dog09") ⟨.Silence, []⟩
        = .returned (silent_parse date_parse (ascii "2020/09/dog09")) ⟨.Silence, []⟩ :=
  ⟨rfl, by decide!, (parse_silent date_parse (ascii "2020/09/dog09") ⟨.Silence, []⟩ rfl).2.1⟩

/-! ## What a caller receives -/

theorem returnsOrTerminates_pure {α : Type} (v : α) (w : World) :
    ReturnsOrTerminates (pure v : Eff α) w :=
  Or.inl ⟨v, w, rfl, rfl⟩

theorem returnsOrTerminates_handle_error (msg : Str) (w : World) (h : w.severity ≠ .Throw) :
    ReturnsOrTerminates (handle_error msg) w := by
  cases hs : w.severity with
  | Silence => exact Or.inl ⟨(), w, handle_error_silence msg w hs, rfl⟩
  | Logging => exact Or.inl ⟨(), logged w msg, handle_error_logging msg w hs, rfl⟩
  | Throw => exact absurd hs h
  | Terminate => exact Or.inr ⟨hs, 1, _, handle_error_terminate msg w hs⟩

theorem returnsOrTerminates_bind {α β : Type} (m : Eff α) (f : α → Eff β) (w : World)
    (hm : ReturnsOrTerminates m w)
    (hf : ∀ v w1, w1.severity = w.severity → ReturnsOrTerminates (f v) w1) :
    ReturnsOrTerminates (m >>= f) w := by
  rcases hm with ⟨v, w1, hv, hs⟩ | ⟨ht, c, w1, hc⟩
  · rcases hf v w1 hs with ⟨v2, w2, hv2, hs2⟩ | ⟨ht, c, w2, hc⟩
    · exact Or.inl ⟨v2, w2, by rw [bind_run, hv]; exact hv2, hs2.trans hs⟩
    · exact Or.inr ⟨hs ▸ ht, c, w2, by rw [bind_run, hv]; exact hc⟩
  · exact Or.inr ⟨ht, c, w1, by rw [bind_run, hc]⟩

theorem returnsOrTerminates_report {α : Type} (msg : Str) (v : α) (w : World)
    (h : w.severity ≠ .Throw) :
    ReturnsOrTerminates (handle_error msg >>= fun _ => (pure v : Eff α)) w :=
  returnsOrTerminates_bind _ _ w (returnsOrTerminates_handle_error msg w h)
    fun _ w1 _ => returnsOrTerminates_pure v w1

theorem returnsOrTerminates_get_date_pattern (dp : DateParser) (s : Str) (w : World)
    (h : w.severity ≠ .Throw) : ReturnsOrTerminates (get_date_pattern dp s) w := by
  unfold get_date_pattern
  cases first_pattern dp s date_patterns with
  | some p => exact returnsOrTerminates_pure p w
  | none => exact returnsOrTerminates_report _ _ w h

theorem returnsOrTerminates_parse_integer (s : Str) (w : World) (h : w.severity ≠ .Throw) :
    ReturnsOrTerminates (parse_integer s) w := by
  unfold parse_integer
  cases stoll (filter_chars s digit_or_period) with
  | ok v => exact returnsOrTerminates_pure v w
  | error e => exact returnsOrTerminates_report _ _ w h

theorem returnsOrTerminates_parse_float (s : Str) (w : World) (h : w.severity ≠ .Throw) :
    ReturnsOrTerminates (parse_float s) w := by
  unfold parse_float
  cases stold (filter_chars s digit_or_period) with
  | ok v => exact returnsOrTerminates_pure v w
  | error e => exact returnsOrTerminates_report _ _ w h

theorem returnsOrTerminates_parse_date (dp : DateParser) (s : Str) (pattern : Pattern)
    (w : World) (h : w.severity ≠ .Throw) : ReturnsOrTerminates (parse_date dp s pattern) w := by
  unfold parse_date
  cases dp pattern s with
  | some tp => exact returnsOrTerminates_pure _ w
  | none => exact returnsOrTerminates_report _ _ w h

theorem returnsOrTerminates_get_parse_instruction (dp : DateParser) (s : Str) (w : World)
    (h : w.severity ≠ .Throw) : ReturnsOrTerminates (get_parse_instruction dp s) w := by
  unfold get_parse_instruction
  split
  · exact returnsOrTerminates_pure _ w
  · split
    · exact returnsOrTerminates_pure _ w
    · refine returnsOrTerminates_bind _ _ w (returnsOrTerminates_get_date_pattern dp s w h) ?_
      intro p w1 _
      split
      · exact returnsOrTerminates_pure _ w1
      · exact returnsOrTerminates_pure _ w1

theorem returnsOrTerminates_parse (dp : DateParser) (s : Str) (i : ParseInstruction)
    (w : World) (h : w.severity ≠ .Throw) : ReturnsOrTerminates (parse dp s i) w := by
  have hfloat : ∀ t : DataType, ReturnsOrTerminates
      (parse_float s >>= fun v => (pure ⟨.long_double v, t⟩ : Eff Datum)) w :=
    fun t => returnsOrTerminates_bind _ _ w (returnsOrTerminates_parse_float s w h)
      fun v w1 _ => returnsOrTerminates_pure _ w1
  have hdate : ∀ w0 : World, w0.severity ≠ .Throw → ReturnsOrTerminates
      (parse_date dp s i.pattern >>= fun v =>
        (pure ⟨.unsigned_long v, .Date⟩ : Eff Datum)) w0 :=
    fun w0 h0 => returnsOrTerminates_bind _ _ w0
      (returnsOrTerminates_parse_date dp s i.pattern w0 h0)
      fun v w1 _ => returnsOrTerminates_pure _ w1
  obtain ⟨t, pat⟩ := i
  cases t with
  | Currency => exact hfloat _
  | Float => exact hfloat _
  | Percentage => exact hfloat _
  | Integer =>
      exact returnsOrTerminates_bind _ _ w (returnsOrTerminates_parse_integer s w h)
        fun v w1 _ => returnsOrTerminates_pure _ w1
  | String => exact returnsOrTerminates_pure _ w
  | Date =>
      simp only [parse]
      split
      · refine returnsOrTerminates_bind _ _ w (returnsOrTerminates_handle_error _ w h) ?_
        intro _ w1 hs
        exact hdate w1 (hs ▸ h)
      · refine returnsOrTerminates_bind _ _ w (returnsOrTerminates_pure _ w) ?_
        intro _ w1 hs
        exact hdate w1 (hs ▸ h)

/-- C14, amended: for every input and every severity other than `Throw`, each of
`get_date_pattern`, `is_date`, `parse_integer`, `parse_float`, `parse_date` (both overloads),
`get_parse_instruction` and `parse` (both overloads) returns a value to its caller and leaves
the severity as it was, or, under `Terminate` only, ends the process: the caller never
receives an error, and under `Silence` and `Logging` it always receives a value. -/
theorem returns_unless_throw (dp : DateParser) (s : Str) (pattern : Pattern)
    (i : ParseInstruction) (w : World) (h : w.severity ≠ .Throw) :
    ReturnsOrTerminates (get_date_pattern dp s) w
    ∧ ReturnsOrTerminates (is_date dp s) w
    ∧ ReturnsOrTerminates (parse_integer s) w
    ∧ ReturnsOrTerminates (parse_float s) w
    ∧ ReturnsOrTerminates (parse_date dp s pattern) w
    ∧ ReturnsOrTerminates (parse_date_classified dp s) w
    ∧ ReturnsOrTerminates (get_parse_instruction dp s) w
    ∧ ReturnsOrTerminates (parse dp s i) w
    ∧ ReturnsOrTerminates (parse_classified dp s) w := by
  refine ⟨returnsOrTerminates_get_date_pattern dp s w h, ?_,
    returnsOrTerminates_parse_integer s w h, returnsOrTerminates_parse_float s w h,
    returnsOrTerminates_parse_date dp s pattern w h, ?_,
    returnsOrTerminates_get_parse_instruction dp s w h, returnsOrTerminates_parse dp s i w h, ?_⟩
  · exact returnsOrTerminates_bind _ _ w (returnsOrTerminates_get_date_pattern dp s w h)
      fun p w1 _ => returnsOrTerminates_pure _ w1
  · refine returnsOrTerminates_bind _ _ w (returnsOrTerminates_get_date_pattern dp s w h) ?_
    intro p w1 hs
    show ReturnsOrTerminates (if p = ascii "invalid" then pure 0 else parse_date dp s p) w1
    split
    · exact returnsOrTerminates_pure _ w1
    · exact returnsOrTerminates_parse_date dp s p w1 (hs ▸ h)
  · refine returnsOrTerminates_bind _ _ w (returnsOrTerminates_get_parse_instruction dp s w h) ?_
    intro i1 w1 hs
    exact returnsOrTerminates_parse dp s i1 w1 (hs ▸ h)

/-- Under `Logging`, every one of the calls on `"2020/09/dog09"` returns a value. -/
theorem returns_unless_throw_witness :
    (⟨.Logging, []⟩ : World).severity ≠ .Throw
    ∧ ReturnsOrTerminates (parse_classified date_parse (ascii "2020/09/dog09")) ⟨.Logging, []⟩
    ∧ ReturnsOrTerminates (parse_integer (ascii "2020/09/dog09")) ⟨.Logging, []⟩ :=
  have h := returns_unless_throw date_parse (ascii "2020/09/dog09") (ascii "%Y/%m/%d")
    { type := .Date } ⟨.Logging, []⟩ (by decide)
  ⟨by decide, h.2.2.2.2.2.2.2.2, h.2.2.1⟩

/-- C14, as stated, fails under `Terminate`: `parse_integer("abc")` returns no value to its
caller, it writes its message and ends the process with status 1. -/
theorem parse_integer_terminates :
    (⟨.Terminate, []⟩ : World).severity ≠ .Throw
    ∧ parse_integer (ascii "abc") ⟨.Terminate, []⟩
      = .exited 1 ⟨.Terminate,
          RED ++ ascii "Failed to convert: abc to long long" ++ RESET ++ ascii " exit 1" ++ [10]⟩ := by
  decide!

/-! ## The tag and the variant of a datum -/

/-- C16: for every raw string and every parse instruction, whenever `parse(raw, instruction)`
returns a datum, its tag is `instruction.type` and its stored variant is the one that the tag
implies; for `String` it is the raw string unmodified, for `Integer` the value that
`parse_integer(raw)` returned, for `Float`, `Currency` and `Percentage` alike the value that
`parse_float(raw)` returned. -/
theorem parse_tag_and_variant (dp : DateParser) (raw : Str) (i : ParseInstruction)
    (w w1 : World) (d : Datum) (h : parse dp raw i w = .returned d w1) :
    d.type = i.type
    ∧ d.entry.holds = variant_of_tag i.type
    ∧ (i.type = .String → d.entry = .text raw)
    ∧ (i.type = .Integer → ∃ v, d.entry = .long_long v ∧ parse_integer raw w = .returned v w1)
    ∧ (i.type = .Float ∨ i.type = .Currency ∨ i.type = .Percentage →
        ∃ v, d.entry = .long_double v ∧ parse_float raw w = .returned v w1)
    ∧ (i.type = .Date → ∃ v, d.entry = .unsigned_long v) := by
  have hfloat : ∀ t : DataType,
      (parse_float raw >>= fun v => (pure ⟨.long_double v, t⟩ : Eff Datum)) w = .returned d w1 →
      d.type = t ∧ ∃ v, d.entry = .long_double v ∧ parse_float raw w = .returned v w1 := by
    intro t ht
    rw [bind_run] at ht
    cases hpf : parse_float raw w with
    | returned v w2 =>
        rw [hpf] at ht
        simp only [pure_run, Outcome.returned.injEq] at ht
        obtain ⟨hd, hw⟩ := ht
        subst hd hw
        exact ⟨rfl, v, rfl, rfl⟩
    | thrown e w2 =>
        rw [hpf] at ht
        cases ht
    | exited c w2 =>
        rw [hpf] at ht
        cases ht
  obtain ⟨t, pat⟩ := i
  cases t with
  | Currency =>
      obtain ⟨h1, v, h2, h3⟩ := hfloat _ h
      refine ⟨h1, by rw [h2]; rfl, ?_, ?_, fun _ => ⟨v, h2, h3⟩, ?_⟩ <;> intro hc <;> cases hc
  | Float =>
      obtain ⟨h1, v, h2, h3⟩ := hfloat _ h
      refine ⟨h1, by rw [h2]; rfl, ?_, ?_, fun _ => ⟨v, h2, h3⟩, ?_⟩ <;> intro hc <;> cases hc
  | Percentage =>
      obtain ⟨h1, v, h2, h3⟩ := hfloat _ h
      refine ⟨h1, by rw [h2]; rfl, ?_, ?_, fun _ => ⟨v, h2, h3⟩, ?_⟩ <;> intro hc <;> cases hc
  | Integer =>
      simp only [parse, bind_run] at h
      cases hpi : parse_integer raw w with
      | returned v w2 =>
          rw [hpi] at h
          simp only [pure_run, Outcome.returned.injEq] at h
          obtain ⟨hd, hw⟩ := h
          subst hd hw
          refine ⟨rfl, rfl, ?_, fun _ => ⟨v, rfl, rfl⟩, ?_, ?_⟩
          · intro hc
            cases hc
          · rintro (hc | hc | hc) <;> cases hc
          · intro hc
            cases hc
      | thrown e w2 =>
          rw [hpi] at h
          cases h
      | exited c w2 =>
          rw [hpi] at h
          cases h
  | String =>
      simp only [parse, pure_run, Outcome.returned.injEq] at h
      obtain ⟨hd, hw⟩ := h
      subst hd
      refine ⟨rfl, rfl, fun _ => rfl, ?_, ?_, ?_⟩
      · intro hc
        cases hc
      · rintro (hc | hc | hc) <;> cases hc
      · intro hc
        cases hc
  | Date =>
      have hent : d.type = .Date ∧ ∃ v, d.entry = .unsigned_long v := by
        simp only [parse] at h
        split at h
        · rw [bind_run] at h
          cases h1 : handle_error (ascii "Attempting to parse date with empty pattern") w with
          | returned u w2 =>
              rw [h1] at h
              simp only [bind_run] at h
              cases h2 : parse_date dp raw pat w2 with
              | returned v w3 =>
                  rw [h2] at h
                  simp only [pure_run, Outcome.returned.injEq] at h
                  exact ⟨h.1 ▸ rfl, v, h.1 ▸ rfl⟩
              | thrown e w3 =>
                  rw [h2] at h
                  cases h
              | exited c w3 =>
                  rw [h2] at h
                  cases h
          | thrown e w2 =>
              rw [h1] at h
              cases h
          | exited c w2 =>
              rw [h1] at h
              cases h
        · simp only [bind_run, pure_run] at h
          cases h2 : parse_date dp raw pat w with
          | returned v w3 =>
              rw [h2] at h
              simp only [Outcome.returned.injEq] at h
              exact ⟨h.1 ▸ rfl, v, h.1 ▸ rfl⟩
          | thrown e w3 =>
              rw [h2] at h
              cases h
          | exited c w3 =>
              rw [h2] at h
              cases h
      obtain ⟨h1, v, h2⟩ := hent
      refine ⟨h1, by rw [h2]; rfl, ?_, ?_, ?_, fun _ => ⟨v, h2⟩⟩
      · intro hc
        cases hc
      · intro hc
        cases hc
      · rintro (hc | hc | hc) <;> cases hc

/-- The instruction `{Currency}` on `"$1,234.56"`: the datum is tagged `Currency` and holds the
value of `parse_float`. -/
theorem parse_tag_and_variant_witness :
    parse date_parse (ascii "$1,234.56") { type := .Currency } initialWorld
      = .returned { entry := .long_double (123456 / 100), type := .Currency } initialWorld
    ∧ (DataType.Currency = .Float ∨ DataType.Currency = .Currency
        ∨ DataType.Currency = .Percentage →
      ∃ v, Entry.long_double (123456 / 100) = .long_double v
        ∧ parse_float (ascii "$1,234.56") initialWorld = .returned v initialWorld) :=
  have h0 : parse date_parse (ascii "$1,234.56") { type := .Currency } initialWorld
      = .returned { entry := .long_double (123456 / 100), type := .Currency } initialWorld := by
    decide!
  ⟨h0, (parse_tag_and_variant date_parse (ascii "$1,234.56") { type := .Currency } initialWorld
    initialWorld { entry := .long_double (123456 / 100), type := .Currency } h0).2.2.2.2.1⟩

/-! ## Type-checked access -/

theorem std_get_store (T : EntryType) (v : T.carrier) (w : World) :
    std_get T (Entry.store T v) w = .returned v w := by
  cases T <;> rfl

theorem std_get_mismatch (T : EntryType) (entry : Entry) (w : World) (h : entry.holds ≠ T) :
    std_get T entry w = .thrown (ascii "bad variant access") w := by
  cases T <;> cases entry <;> first | rfl | exact absurd rfl h

theorem store_of_holds (T : EntryType) (entry : Entry) (h : entry.holds = T) :
    ∃ v : T.carrier, entry = Entry.store T v := by
  subst h
  cases entry with
  | text s => exact ⟨s, rfl⟩
  | long_double x => exact ⟨x, rfl⟩
  | long_long x => exact ⟨x, rfl⟩
  | unsigned_long x => exact ⟨x, rfl⟩

theorem visit_store (t : DataType) (T : EntryType) (v : T.carrier)
    (visitor : T.carrier → Eff Unit) (w : World) :
    Datum.visit { entry := Entry.store T v, type := t } T visitor w
      = try_catch_all (visitor v) (handle_error visit_message) w := by
  simp only [Datum.visit, try_catch_all, bind_run, std_get_store]
  rfl

/-- C17: for every datum and every requested type `T`, if the stored variant is not `T` then
`visit<T>` is the report of the type-mismatch failure, whatever the callback, which never
runs; if the stored variant is `T`, the callback is invoked once, with the stored value, and
`visit<T>` returns when it returns. -/
theorem visit_type_checked (d : Datum) (T : EntryType) (visitor : T.carrier → Eff Unit)
    (w : World) :
    (d.entry.holds ≠ T → d.visit T visitor w = handle_error visit_message w)
    ∧ (d.entry.holds = T → ∃ v : T.carrier, d.entry = Entry.store T v
        ∧ d.visit T visitor w = try_catch_all (visitor v) (handle_error visit_message) w
        ∧ ∀ w1, visitor v w = .returned () w1 → d.visit T visitor w = .returned () w1) := by
  constructor
  · intro h
    simp only [Datum.visit, try_catch_all, bind_run, std_get_mismatch T d.entry w h]
    rfl
  · intro h
    obtain ⟨v, hv⟩ := store_of_holds T d.entry h
    have hd : d = { entry := Entry.store T v, type := d.type } := by
      cases d
      simp only at hv
      rw [hv]
    refine ⟨v, hv, ?_, ?_⟩
    · rw [hd]
      exact visit_store d.type T v visitor w
    · intro w1 h1
      rw [hd, visit_store d.type T v visitor w]
      simp only [try_catch_all, h1]

/-- A datum holding text visited as `unsigned long` under `Silence`: nothing runs; visited as
text, the callback receives the text. -/
theorem visit_type_checked_witness :
    ((⟨.text (ascii "hello"), .String⟩ : Datum).entry.holds ≠ .unsigned_long
      ∧ (⟨.text (ascii "hello"), .String⟩ : Datum).entry.holds = .text)
    ∧ Datum.visit ⟨.text (ascii "hello"), .String⟩ .unsigned_long
        (fun _ => handle_error_with .Terminate []) ⟨.Silence, []⟩
        = handle_error visit_message ⟨.Silence, []⟩
    ∧ Datum.visit ⟨.text (ascii "hello"), .String⟩ .text
        (fun v => handle_error_with .Logging v) ⟨.Silence, []⟩
        = try_catch_all (handle_error_with .Logging (ascii "hello"))
            (handle_error visit_message) ⟨.Silence, []⟩ :=
  have h1 := visit_type_checked ⟨.text (ascii "hello"), .String⟩ .unsigned_long
    (fun _ => handle_error_with .Terminate []) ⟨.Silence, []⟩
  have h2 := visit_type_checked ⟨.text (ascii "hello"), .String⟩ .text
    (fun v => handle_error_with .Logging v) ⟨.Silence, []⟩
  ⟨⟨by decide, rfl⟩, h1.1 (by decide), by
    obtain ⟨v, hv, hvis, _⟩ := h2.2 rfl
    have hv2 : v = ascii "hello" := by
      simp only [Entry.store, Entry.text.injEq] at hv
      exact hv.symm
    rw [hvis, hv2]⟩

/-- C20: for every datum whose stored variant is `T`, if the callback raises an error, `visit<T>`
catches it and reports "Invalid type argument to visit" in the state the callback left: under
`Silence` and `Logging` it returns normally, and under `Throw` the error that reaches the
caller carries that message and not the one of the callback. -/
theorem visit_callback_error (t : DataType) (T : EntryType) (v : T.carrier)
    (visitor : T.carrier → Eff Unit) (w w1 : World) (e : Str)
    (hthrow : visitor v w = .thrown e w1) :
    Datum.visit { entry := Entry.store T v, type := t } T visitor w
        = handle_error visit_message w1
    ∧ (w1.severity = .Silence →
        Datum.visit { entry := Entry.store T v, type := t } T visitor w = .returned () w1)
    ∧ (w1.severity = .Logging →
        Datum.visit { entry := Entry.store T v, type := t } T visitor w
          = .returned () (logged w1 visit_message))
    ∧ (w1.severity = .Throw →
        Datum.visit { entry := Entry.store T v, type := t } T visitor w
          = .thrown visit_message w1) := by
  have h : Datum.visit { entry := Entry.store T v, type := t } T visitor w
      = handle_error visit_message w1 := by
    rw [visit_store]
    simp only [try_catch_all, hthrow]
  exact ⟨h, fun hs => h.trans (handle_error_silence _ w1 hs),
    fun hs => h.trans (handle_error_logging _ w1 hs),
    fun hs => h.trans (handle_error_throw _ w1 hs)⟩

/-- A callback that throws `"boom"` on the stored 7, under `Logging`: the visit returns and the
log holds the message of `visit`. -/
theorem visit_callback_error_witness :
    (fun (_ : Nat) (w : World) => (Outcome.thrown (ascii "boom") w : Outcome Unit)) 7
        ⟨.Logging, []⟩ = .thrown (ascii "boom") ⟨.Logging, []⟩
    ∧ Datum.visit { entry := Entry.store .unsigned_long 7, type := .Date } .unsigned_long
        (fun _ w => .thrown (ascii "boom") w) ⟨.Logging, []⟩
        = .returned () (logged ⟨.Logging, []⟩ visit_message) :=
  ⟨rfl, (visit_callback_error .Date .unsigned_long 7 (fun _ w => .thrown (ascii "boom") w)
    ⟨.Logging, []⟩ ⟨.Logging, []⟩ (ascii "boom") rfl).2.2.1 rfl⟩

/-! ## What reaches the conversions -/

theorem takeSign_of_no_sign (l : Str) (h : ∀ c ∈ l, c.val ≠ 45 ∧ c.val ≠ 43) :
    takeSign l = (false, l) := by
  cases l with
  | nil => rfl
  | cons a t =>
      obtain ⟨h1, h2⟩ := h a (List.mem_cons_self a t)
      simp [takeSign, h1, h2]

theorem dropWhile_isspace_of_none (l : Str) (h : ∀ c ∈ l, isspace c = false) :
    l.dropWhile isspace = l := by
  cases l with
  | nil => rfl
  | cons a t => simp [List.dropWhile, h a (List.mem_cons_self a t)]

theorem not_space_not_sign (c : Byte)
    (h : IsDigit c ∨ c.val = 46 ∨ c.val = 37 ∨ c.val = 36) :
    isspace c = false ∧ c.val ≠ 45 ∧ c.val ≠ 43 := by
  have hs : isspace c = false ↔ ¬ (c.val = 32 ∨ (9 ≤ c.val ∧ c.val ≤ 13)) := by
    simp only [isspace, Bool.or_eq_false_iff, Bool.and_eq_false_iff, decide_eq_false_iff_not]
    omega
  rw [hs]
  rcases h with ⟨h1, h2⟩ | h | h | h <;> omega

/-- On a string of digits and periods, `std::stoll` sees no sign: a value it returns lies
between 0 and `2 ^ 63 - 1`. -/
theorem stoll_of_digits_periods (t : Str) (v : Int)
    (ht : ∀ c ∈ t, IsDigit c ∨ c.val = 46) (h : stoll t = .ok v) :
    0 ≤ v ∧ v ≤ 2 ^ 63 - 1 := by
  have hns : ∀ c ∈ t, isspace c = false ∧ c.val ≠ 45 ∧ c.val ≠ 43 := fun c hc =>
    not_space_not_sign c ((ht c hc).elim Or.inl fun h46 => Or.inr (Or.inl h46))
  have hdw : t.dropWhile isspace = t := dropWhile_isspace_of_none t fun c hc => (hns c hc).1
  have hsign : takeSign t = (false, t) := takeSign_of_no_sign t fun c hc => (hns c hc).2
  simp only [stoll, hdw, hsign, Bool.false_eq_true, if_false] at h
  split at h
  · cases h
  · split at h
    · cases h
    · rename_i hr
      simp only [Except.ok.injEq] at h
      subst h
      constructor
      · exact Int.natCast_nonneg _
      · omega

/-- C19: for every string, whenever `parse_integer` returns, the value lies between 0 and
`2 ^ 63 - 1`: the filter leaves only digits and periods, so no sign reaches `std::stoll`, and
`parse_integer("-5")` returns 5 whatever the severity. -/
theorem parse_integer_nonneg :
    (∀ (s : Str) (w w1 : World) (v : Int), parse_integer s w = .returned v w1 →
      0 ≤ v ∧ v ≤ 2 ^ 63 - 1)
    ∧ (∀ w : World, parse_integer (ascii "-5") w = .returned 5 w) := by
  constructor
  · intro s w w1 v h
    unfold parse_integer at h
    cases hst : stoll (filter_chars s digit_or_period) with
    | ok v0 =>
        rw [hst] at h
        simp only [pure_run, Outcome.returned.injEq] at h
        rw [← h.1]
        exact stoll_of_digits_periods _ v0 (digit_or_period_filtrate s) hst
    | error e =>
        rw [hst] at h
        simp only [bind_run] at h
        cases hh : handle_error (ascii "Failed to convert: " ++ s ++ ascii " to long long") w with
        | returned u w2 =>
            rw [hh] at h
            simp only [pure_run, Outcome.returned.injEq] at h
            rw [← h.1]
            norm_num
        | thrown e2 w2 =>
            rw [hh] at h
            cases h
        | exited c w2 =>
            rw [hh] at h
            cases h
  · intro w
    have hst : stoll (filter_chars (ascii "-5") digit_or_period) = .ok 5 := by decide!
    rw [parse_integer, hst]
    rfl

/-- The value that `parse_integer("-5")` returns at start-up is 5, within the range. -/
theorem parse_integer_nonneg_witness :
    parse_integer (ascii "-5") initialWorld = .returned 5 initialWorld
    ∧ (0 : Int) ≤ 5 ∧ (5 : Int) ≤ 2 ^ 63 - 1 :=
  have h := parse_integer_nonneg.2 initialWorld
  ⟨h, parse_integer_nonneg.1 (ascii "-5") initialWorld initialWorld 5 h⟩

/-! ## A numeric string is converted by `parse_float` -/

theorem isdigit_eq_false_of_not (c : Byte) (h : ¬ IsDigit c) : isdigit c = false := by
  cases hd : isdigit c with
  | false => rfl
  | true => exact absurd ((isdigit_iff c).1 hd) h

/-- A string of digits, periods, percent signs and dollar signs that `std::stold` converts
begins with a digit, or with a period and a digit. -/
theorem stold_ok_head (t : Str) (v : LongDouble)
    (ht : ∀ c ∈ t, IsDigit c ∨ c.val = 46 ∨ c.val = 37 ∨ c.val = 36)
    (h : stold t = .ok v) :
    ∃ d r, IsDigit d ∧ (t = d :: r ∨ t = 46 :: d :: r) := by
  cases t with
  | nil =>
      have hnil : stold [] = .error .invalid_argument := by decide!
      rw [hnil] at h
      cases h
  | cons a r =>
      by_cases ha : IsDigit a
      · exact ⟨a, r, ha, Or.inl rfl⟩
      · have hns := not_space_not_sign a (ht a (List.mem_cons_self a r))
        have hdw : (a :: r).dropWhile isspace = a :: r := by
          simp [List.dropWhile, hns.1]
        have hsign : takeSign (a :: r) = (false, a :: r) := by
          simp [takeSign, hns.2.1, hns.2.2]
        have hda : isdigit a = false := isdigit_eq_false_of_not a ha
        have htw : (a :: r).takeWhile isdigit = [] := by simp [List.takeWhile, hda]
        have hdr : (a :: r).dropWhile isdigit = a :: r := by simp [List.dropWhile, hda]
        simp only [stold, hdw, hsign, htw, hdr, List.isEmpty_nil, Bool.true_and] at h
        by_cases h46 : a.val = 46
        · have ha46 : a = 46 := Fin.ext h46
          cases r with
          | nil =>
              simp only [h46, if_true, List.takeWhile_nil, List.isEmpty_nil] at h
              cases h
          | cons d r1 =>
              by_cases hd : IsDigit d
              · exact ⟨d, r1, hd, Or.inr (by rw [ha46])⟩
              · have hdd : isdigit d = false := isdigit_eq_false_of_not d hd
                simp only [h46, if_true, List.takeWhile, hdd, List.isEmpty_nil] at h
                cases h
        · simp only [h46, if_false, List.isEmpty_nil, if_true] at h
          cases h

theorem keepDigitsAndPeriods_delete (s : Str) :
    keepDigitsAndPeriods (deleteCommasAndHighBytes s) = keepDigitsAndPeriods s := by
  unfold keepDigitsAndPeriods deleteCommasAndHighBytes
  rw [List.filter_filter]
  apply List.filter_congr
  intro c _
  by_cases h1 : c.val = 46
  · have e1 : ¬ c.val = 44 := by omega
    have e2 : ¬ 127 ≤ c.val := by omega
    simp [h1, e1, e2]
  · by_cases h2 : 48 ≤ c.val ∧ c.val ≤ 57
    · have e1 : ¬ c.val = 44 := by omega
      have e2 : ¬ 127 ≤ c.val := by omega
      simp [h2.1, h2.2, e1, e2]
    · have e3 : ¬ (48 ≤ c.val ∧ c.val ≤ 57) := h2
      simp only [not_and] at e3
      by_cases h3 : 48 ≤ c.val
      · have e4 : ¬ c.val ≤ 57 := e3 h3
        simp [h1, h3, e4]
      · simp [h1, h3]

/-- A string that begins with a digit, or with a period and a digit, is not refused by
`std::stold` for want of a number. -/
theorem stold_not_invalid (t : Str)
    (h : ∃ d r, IsDigit d ∧ (t = d :: r ∨ t = 46 :: d :: r)) :
    stold t ≠ .error .invalid_argument := by
  obtain ⟨d, r, hd, ht | ht⟩ := h
  · have hns := not_space_not_sign d (Or.inl hd)
    have hdw : (d :: r).dropWhile isspace = d :: r := by simp [List.dropWhile, hns.1]
    have hsign : takeSign (d :: r) = (false, d :: r) := by
      simp [takeSign, hns.2.1, hns.2.2]
    have hdd : isdigit d = true := (isdigit_iff d).2 hd
    have htw : (d :: r).takeWhile isdigit = d :: r.takeWhile isdigit := by
      simp [List.takeWhile, hdd]
    rw [ht]
    simp only [stold, hdw, hsign, htw, List.isEmpty_cons, Bool.false_and, Bool.false_eq_true,
      if_false]
    split <;> simp
  · have hdw : ((46 : Byte) :: d :: r).dropWhile isspace = 46 :: d :: r := by
      simp [List.dropWhile, isspace_period]
    have hsign : takeSign ((46 : Byte) :: d :: r) = (false, 46 :: d :: r) := rfl
    have hdd : isdigit d = true := (isdigit_iff d).2 hd
    have htw : ((46 : Byte) :: d :: r).takeWhile isdigit = [] := by
      simp [List.takeWhile, isdigit_period]
    have hdr : ((46 : Byte) :: d :: r).dropWhile isdigit = 46 :: d :: r := by
      simp [List.dropWhile, isdigit_period]
    have hfp : (d :: r).takeWhile isdigit = d :: r.takeWhile isdigit := by
      simp [List.takeWhile, hdd]
    have h46 : ((46 : Byte) : Nat) = 46 := rfl
    rw [ht]
    simp only [stold, hdw, hsign, htw, hdr, h46, if_true, hfp, List.isEmpty_cons,
      Bool.and_false, Bool.false_eq_true, if_false]
    split <;> simp

/-- C18: for every string on which `is_numeric` is true, the string that `parse_float` hands
to `std::stold` begins with a digit, or with a period and a digit, so that the conversion does
not fail for want of a number; if moreover its value is in the range of `long double`,
`parse_float` returns the converted value, whatever the severity, and reports nothing. -/
theorem parse_float_of_numeric (s : Str) (h : is_numeric s = true) :
    (∃ d r, IsDigit d
      ∧ (keepDigitsAndPeriods s = d :: r ∨ keepDigitsAndPeriods s = 46 :: d :: r))
    ∧ stold (filter_chars s digit_or_period) ≠ .error .invalid_argument
    ∧ (stold (filter_chars s digit_or_period) ≠ .error .out_of_range →
        ∃ v, stold (filter_chars s digit_or_period) = .ok v
          ∧ ∀ w : World, parse_float s w = .returned v w) := by
  obtain ⟨_, hlegal, v1, hv1⟩ := (is_numeric_true_iff s).1 h
  have halpha : ∀ c ∈ deleteCommasAndHighBytes s,
      IsDigit c ∨ c.val = 46 ∨ c.val = 37 ∨ c.val = 36 := by
    rw [← filter_chars_below_127]
    exact is_numeric_filtrate s ((filter_chars_illegal_empty_iff s).2 hlegal)
  obtain ⟨d, r, hd, ht⟩ := stold_ok_head _ v1 halpha hv1
  have hkd : ((decide (48 ≤ d.val) && decide (d.val ≤ 57)) || decide (d.val = 46)) = true := by
    simp [hd.1, hd.2]
  have hhead : ∃ d r, IsDigit d
      ∧ (keepDigitsAndPeriods s = d :: r ∨ keepDigitsAndPeriods s = 46 :: d :: r) := by
    rw [← keepDigitsAndPeriods_delete]
    rcases ht with ht | ht
    · refine ⟨d, keepDigitsAndPeriods r, hd, Or.inl ?_⟩
      rw [ht]
      unfold keepDigitsAndPeriods
      simp only [List.filter_cons, hkd, if_true]
    · refine ⟨d, keepDigitsAndPeriods r, hd, Or.inr ?_⟩
      have h46k : ((decide (48 ≤ ((46 : Byte) : Nat)) && decide (((46 : Byte) : Nat) ≤ 57))
          || decide (((46 : Byte) : Nat) = 46)) = true := by decide
      rw [ht]
      unfold keepDigitsAndPeriods
      simp only [List.filter_cons, h46k, hkd, if_true]
  have hni : stold (filter_chars s digit_or_period) ≠ .error .invalid_argument := by
    rw [filter_chars_digit_or_period]
    exact stold_not_invalid _ hhead
  refine ⟨hhead, hni, fun hnr => ?_⟩
  cases hst : stold (filter_chars s digit_or_period) with
  | ok v =>
      refine ⟨v, rfl, fun w => ?_⟩
      rw [parse_float, hst]
      rfl
  | error e =>
      cases e with
      | invalid_argument => exact absurd hst hni
      | out_of_range => exact absurd hst hnr

/-- The numeric string `"12.5%"` is converted to 12.5. -/
theorem parse_float_of_numeric_witness :
    is_numeric (ascii "12.5%") = true
    ∧ stold (filter_chars (ascii "12.5%") digit_or_period) ≠ .error .out_of_range
    ∧ ∃ v, stold (filter_chars (ascii "12.5%") digit_or_period) = .ok v
        ∧ ∀ w : World, parse_float (ascii "12.5%") w = .returned v w :=
  ⟨by decide!, by decide!,
    (parse_float_of_numeric (ascii "12.5%") (by decide!)).2.2 (by decide!)⟩

/-! ## A numeric string beyond the range of `parse_float` -/

theorem stold_one_percent (rest : Str) : stold (49 :: 37 :: rest) = .ok 1 := by
  have hdw : ((49 : Byte) :: 37 :: rest).dropWhile isspace = 49 :: 37 :: rest := by
    simp [List.dropWhile, show isspace 49 = false from rfl]
  have hsign : takeSign ((49 : Byte) :: 37 :: rest) = (false, 49 :: 37 :: rest) := rfl
  have htw : ((49 : Byte) :: 37 :: rest).takeWhile isdigit = [49] := by
    simp [List.takeWhile, show isdigit 49 = true from rfl, show isdigit 37 = false from rfl]
  have hdr : ((49 : Byte) :: 37 :: rest).dropWhile isdigit = 37 :: rest := by
    simp [List.dropWhile, show isdigit 49 = true from rfl, show isdigit 37 = false from rfl]
  have h37 : ¬ ((37 : Byte) : Nat) = 46 := by decide
  have ho : ld_overflow 1 0 = false := by decide!
  have hu : ld_underflow 1 0 = false := by decide!
  have hv : digitsValue ([49] ++ []) = 1 := rfl
  simp only [stold, hdw, hsign, htw, hdr, h37, if_false, List.isEmpty_cons, Bool.false_and,
    Bool.false_eq_true, List.length_nil, hv, ho, hu, Bool.or_self]
  norm_num

/-- On a non-empty run of digits `std::stold` reads the whole run as an integer. -/
theorem stold_digits (ip : Str) (hip : ∀ c ∈ ip, IsDigit c) (hne : ip ≠ []) :
    stold ip =
      if ld_overflow (digitsValue ip) 0 || ld_underflow (digitsValue ip) 0 then
        .error .out_of_range
      else .ok (digitsValue ip : ℚ) := by
  have hns : ∀ c ∈ ip, isspace c = false ∧ c.val ≠ 45 ∧ c.val ≠ 43 := fun c hc =>
    not_space_not_sign c (Or.inl (hip c hc))
  have hdw : ip.dropWhile isspace = ip := dropWhile_isspace_of_none ip fun c hc => (hns c hc).1
  have hsign : takeSign ip = (false, ip) := takeSign_of_no_sign ip fun c hc => (hns c hc).2
  have hip1 : ∀ c ∈ ip, isdigit c = true := fun c hc => (isdigit_iff c).2 (hip c hc)
  have htw : ip.takeWhile isdigit = ip := List.takeWhile_eq_self_iff.2 hip1
  have hdr : ip.dropWhile isdigit = [] := List.dropWhile_eq_nil_iff.2 hip1
  have hemp : ip.isEmpty = false := by simp [List.isEmpty_iff, hne]
  simp only [stold, hdw, hsign, htw, hdr, hemp, Bool.false_and, Bool.false_eq_true, if_false,
    List.append_nil, List.length_nil, pow_zero, one_mul, div_one]

theorem digitsValue_one_nines (n : Nat) :
    10 ^ n ≤ digitsValue (49 :: List.replicate n 57) := by
  induction n with
  | zero => decide
  | succ k ih =>
      have h57 : ((57 : Byte) : Nat) - 48 = 9 := rfl
      rw [List.replicate_succ', ← List.cons_append, digitsValue_append_singleton, h57, pow_succ]
      omega

theorem ld_overflow_bound : (2 ^ 16384 - 2 ^ 16319) * 10 ^ 0 ≤ 10 ^ 5000 := by decide!

/-- Why the range in C18 is that of the string `parse_float` converts: `is_numeric` stops at the
percent sign of `"1%"` followed by 5000 digits `9` and is true, while `parse_float` deletes the
sign, overflows, and returns the sentinel 0 under `Silence`. -/
theorem one_percent_nines_overflows :
    is_numeric one_percent_nines = true
    ∧ stold (filter_chars one_percent_nines digit_or_period) = .error .out_of_range
    ∧ parse_float one_percent_nines ⟨.Silence, []⟩ = .returned 0 ⟨.Silence, []⟩ := by
  have hlegal : ∀ c ∈ one_percent_nines, LegalNumericByte c := by
    intro c hc
    rcases List.mem_cons.1 hc with h | hc
    · rw [h]
      decide
    · rcases List.mem_cons.1 hc with h | hc
      · rw [h]
        decide
      · rw [(List.mem_replicate.1 hc).2]
        decide
  have hdel : deleteCommasAndHighBytes one_percent_nines = one_percent_nines := by
    rw [← filter_chars_below_127]
    apply filter_chars_eq_self
    intro c hc
    rcases List.mem_cons.1 hc with h | hc
    · rw [h]
      decide
    · rcases List.mem_cons.1 hc with h | hc
      · rw [h]
        decide
      · rw [(List.mem_replicate.1 hc).2]
        decide
  have hnum : is_numeric one_percent_nines = true := by
    refine (is_numeric_true_iff _).2 ⟨List.cons_ne_nil _ _, hlegal, 1, ?_⟩
    rw [hdel]
    exact stold_one_percent _
  have hkeep : filter_chars one_percent_nines digit_or_period
      = 49 :: List.replicate 5000 57 := by
    show List.filter digit_or_period (49 :: 37 :: List.replicate 5000 57) = _
    rw [List.filter_cons_of_pos (by decide), List.filter_cons_of_neg (by decide),
      List.filter_replicate_of_pos (by decide)]
  have hall : ∀ c ∈ (49 : Byte) :: List.replicate 5000 57, IsDigit c := by
    intro c hc
    rcases List.mem_cons.1 hc with h | hc
    · rw [h]
      decide
    · rw [(List.mem_replicate.1 hc).2]
      decide
  have hover : ld_overflow (digitsValue (49 :: List.replicate 5000 57)) 0 = true := by
    simp only [ld_overflow, decide_eq_true_eq]
    exact le_trans ld_overflow_bound (digitsValue_one_nines 5000)
  have hst : stold (filter_chars one_percent_nines digit_or_period) = .error .out_of_range := by
    rw [hkeep, stold_digits _ hall (List.cons_ne_nil _ _), hover]
    rfl
  refine ⟨hnum, hst, ?_⟩
  rw [parse_float_silence _ _ rfl, ← filter_chars_digit_or_period, hst]

end datum
